import Mathlib

/-!
# LED button matrix firmware: ring buffer, BAM frame buffer, debounce scheduler

A shallow embedding of `src/src/ring-buffer.h` and `src/src/main.cpp`.

Conventions of the embedding.

* `uint8_t` and `uint16_t` values are natural numbers; a truncation to the
  machine width is written `% 256` or `% 65536` where the source stores into
  such a variable. The target is an AVR microcontroller (timer register
  `OCR1A`), where `int`, `size_t` and data pointers are 16 bits wide.
* Pointers into the ring buffer storage are element indices counted from
  `startAddr` (`startAddr` itself is index `0`), and the storage is a flat
  map from element index to element, so that a slot past the `size`
  allocated elements is still a memory cell that can be written and read.
  Indices and addresses agree as long as the pointers the constructor and the
  methods form stay inside the 16-bit address space (`InAddressSpace`).
* The global arrays of `main.cpp` are total maps from indices to bytes.
-/

namespace Matrix

/-! ## ring-buffer.h -/

/-- The object state of `RingBuffer<T>`: the four pointers as element indices
from `startAddr`, and the memory they point into. -/
structure RingBuffer (α : Type) where
  size : Nat
  endAddr : Nat
  head : Nat
  tail : Nat
  mem : Nat → α

/-- Constructor `RingBuffer(uint16_t size)` (ring-buffer.h:12-17). `sizeofT` is
`sizeof(T)` and `mem0` the content of the memory returned by `malloc`.
`startAddr + ((size - 1) * sizeof(T))` is arithmetic on a `T *`, so the
integer `(size - 1) * sizeof(T)` (computed in 16-bit unsigned arithmetic)
counts elements.

For `size = 0` the unsigned `size - 1` wraps and the sum wraps with it: the
end pointer comes out `sizeof(T)` elements below `startAddr`. Both cursors
start at `startAddr`, so every test `p > endAddr` of `write` and `read` is then
true, the cursors never leave `startAddr`, and every call is refused. An index
cannot lie below `startAddr`; the case is represented by the end pointer at
`startAddr` itself (index 0), for which the same tests are true and the same
calls are refused. -/
def RingBuffer.new {α : Type} (sizeofT size : Nat) (mem0 : Nat → α) : RingBuffer α :=
  { size := size
    endAddr := if size = 0 then 0 else ((size + 65535) % 65536 * sizeofT) % 65536
    head := 0
    tail := 0
    mem := mem0 }

/-- The pointer `nextElement` computed in `write` (ring-buffer.h:20-22). -/
def RingBuffer.nextElement {α : Type} (rb : RingBuffer α) : Nat :=
  if rb.head + 1 > rb.endAddr then 0 else rb.head + 1

/-- Method `write` (ring-buffer.h:19-31): the new object state and the returned `bool`. -/
def RingBuffer.write {α : Type} (rb : RingBuffer α) (element : α) : RingBuffer α × Bool :=
  let nextElement := rb.nextElement
  if nextElement ≠ rb.tail then
    ({ rb with mem := Function.update rb.mem rb.head element, head := nextElement }, true)
  else
    (rb, false)

/-- Method `read` (ring-buffer.h:33-42): the new object state and `some x` when
`true` is returned with `x` copied to `*element`, `none` when `false` is
returned (`*element` is then not written). -/
def RingBuffer.read {α : Type} (rb : RingBuffer α) : RingBuffer α × Option α :=
  if rb.head ≠ rb.tail then
    ({ rb with tail := if rb.tail + 1 > rb.endAddr then 0 else rb.tail + 1 }, some (rb.mem rb.tail))
  else
    (rb, none)

/-- Both cursors lie between `startAddr` and `endAddr`. -/
def RingBuffer.WF {α : Type} (rb : RingBuffer α) : Prop :=
  rb.head ≤ rb.endAddr ∧ rb.tail ≤ rb.endAddr

/-- Number of written and not yet read elements. -/
def RingBuffer.count {α : Type} (rb : RingBuffer α) : Nat :=
  if rb.tail ≤ rb.head then rb.head - rb.tail else rb.head + (rb.endAddr + 1) - rb.tail

/-- Index of the `i`-th unread element, counted from the read cursor. -/
def RingBuffer.slot {α : Type} (rb : RingBuffer α) (i : Nat) : Nat :=
  if rb.tail + i ≤ rb.endAddr then rb.tail + i else rb.tail + i - (rb.endAddr + 1)

/-- The readable contents: the elements between the read cursor and the write
cursor, oldest first. -/
def RingBuffer.contents {α : Type} (rb : RingBuffer α) : List α :=
  (List.range rb.count).map (fun i => rb.mem (rb.slot i))

/-! ## main.cpp: frame buffer -/

def COLS : Nat := 10
def ROWS : Nat := 6
def RGB_RED : Nat := 0
def RGB_GREEN : Nat := 1
def RGB_BLUE : Nat := 2
def BAM_STAGES : Nat := 4
def BAM_INIT_COUNT : Nat := 16
def BUTTON_INPUT_DEBOUNCE_CONSTANT : Nat := 2
def BUTTON_EVENT_BUFFER_SIZE : Nat := 10

/-- The array `rgb[BAM_STAGES][COLS][NUMBER_OF_COLORS]`. -/
abbrev FrameBuffer := Nat → Nat → Nat → Nat

/-- Assignment `rgb[i][col][ch] = v`. -/
def setCell (fb : FrameBuffer) (i col ch v : Nat) : FrameBuffer :=
  fun i' col' ch' => if i' = i ∧ col' = col ∧ ch' = ch then v else fb i' col' ch'

/-- Statement `x &= ~rowMask` on a `uint8_t` cell: `~rowMask` is the complement
of the promoted `int`, the result is truncated to 8 bits. -/
def clearMask (x rowMask : Nat) : Nat :=
  (x &&& (65535 ^^^ rowMask)) % 256

/-- Statement `x |= rowMask` on a `uint8_t` cell. -/
def setMask (x rowMask : Nat) : Nat :=
  (x ||| rowMask) % 256

/-- One iteration of the loop of `setColor` (main.cpp:54-67), for BAM position `i`. -/
def setColorStage (row col red green blue : Nat) (fb : FrameBuffer) (i : Nat) : FrameBuffer :=
  let bamMask := (1 <<< i) % 256
  let rowMask := (1 <<< row) % 256
  let fb := setCell fb i col RGB_RED (clearMask (fb i col RGB_RED) rowMask)
  let fb := setCell fb i col RGB_BLUE (clearMask (fb i col RGB_BLUE) rowMask)
  let fb := setCell fb i col RGB_GREEN (clearMask (fb i col RGB_GREEN) rowMask)
  let fb := if red &&& bamMask ≠ 0 then
    setCell fb i col RGB_RED (setMask (fb i col RGB_RED) rowMask) else fb
  let fb := if green &&& bamMask ≠ 0 then
    setCell fb i col RGB_GREEN (setMask (fb i col RGB_GREEN) rowMask) else fb
  let fb := if blue &&& bamMask ≠ 0 then
    setCell fb i col RGB_BLUE (setMask (fb i col RGB_BLUE) rowMask) else fb
  fb

/-- Function `setColor(row, col, red, green, blue)` (main.cpp:45-68). -/
def setColor (fb : FrameBuffer) (row col red green blue : Nat) : FrameBuffer :=
  if row ≥ ROWS then fb
  else if col ≥ COLS then fb
  else (List.range 4).foldl (setColorStage row col red green blue) fb

/-- Function `setColor(row, col, color)` (main.cpp:72-74); `colors` is the table
of `colors.h`, `colors c k` being `colors[c][k]`. -/
def setColorIndex (colors : Nat → Nat → Nat) (fb : FrameBuffer) (row col color : Nat) :
    FrameBuffer :=
  setColor fb row col (colors color 0) (colors color 1) (colors color 2)

/-- Function `receiveEvent(bytes)` (main.cpp:77-90); `wire` holds the bytes that
the successive `Wire.read()` calls return. -/
def receiveEvent (colors : Nat → Nat → Nat) (fb : FrameBuffer) (bytes : Nat)
    (wire : Nat → Nat) : FrameBuffer :=
  if bytes = 4 then
    let row := wire 0
    let column := wire 1
    let isOn := wire 2
    let color := wire 3
    if isOn ≠ 0 then setColorIndex colors fb row column color
    else setColor fb row column 0 0 0
  else fb

/-- Bit `row` of a stage mask, as 0 or 1. -/
def rowBit (x row : Nat) : Nat := (x >>> row) % 2

/-- The 4-bit number read from bit `row` of the four stage masks of a column
and channel, stage 0 being the least significant bit. -/
def decode (fb : FrameBuffer) (row col ch : Nat) : Nat :=
  rowBit (fb 0 col ch) row + 2 * rowBit (fb 1 col ch) row
    + 4 * rowBit (fb 2 col ch) row + 8 * rowBit (fb 3 col ch) row

/-- Intensity of a channel among the arguments `red`, `green`, `blue`. -/
def chan (red green blue ch : Nat) : Nat :=
  if ch = RGB_RED then red else if ch = RGB_GREEN then green else blue

/-- Value a stage mask `x` takes in iteration `i` of `setColor` for intensity `v`. -/
def stageVal (x row v i : Nat) : Nat :=
  if v &&& ((1 <<< i) % 256) ≠ 0 then
    setMask (clearMask x ((1 <<< row) % 256)) ((1 <<< row) % 256)
  else clearMask x ((1 <<< row) % 256)

/-! ## main.cpp: event queue, poll handler and scheduler -/

/-- Modelled from the spec: the struct `ButtonEvent` of `button-event.h`, three
8-bit fields sent to the host in the order `column`, `row`, `isPressed`. -/
structure ButtonEvent where
  column : Nat
  row : Nat
  isPressed : Nat
  deriving DecidableEq, Repr

/-- Function `requestEvent` (main.cpp:93-104): the new state of
`buttonEventBuffer` and the bytes passed to `Wire.write`, in order. -/
def requestEvent (buf : RingBuffer ButtonEvent) : RingBuffer ButtonEvent × List Nat :=
  match buf.read with
  | (buf', some btEvent) => (buf', [btEvent.column, btEvent.row, btEvent.isPressed])
  | (buf', none) => (buf', [0xFF, 0xFF, 0xFF])

/-- The globals of `main.cpp` used by the interrupt routine, the timer compare
register `OCR1A`, and `halted`, which records that control has entered the
loop `while(1)` of main.cpp:213-216: that loop has no exit and runs inside the
interrupt routine with interrupts disabled, so nothing else executes after it
is entered. -/
structure State where
  rgb : FrameBuffer
  lastButtonInput : Nat → Nat
  buttonInputCounter : Nat → Nat
  buttonInputChanged : Nat → Nat
  buttonEventBuffer : RingBuffer ButtonEvent
  column : Nat
  bamCount : Nat
  OCR1A : Nat
  halted : Bool

/-- The state after `setup()` (main.cpp:30-36, 119, 136, 153-154). `sizeofEvent`
is `sizeof(ButtonEvent)`, `mem0` the content of the memory obtained for the
queue. -/
def State.init (sizeofEvent : Nat) (mem0 : Nat → ButtonEvent) : State :=
  { rgb := fun _ _ _ => 0
    lastButtonInput := fun _ => 0
    buttonInputCounter := fun _ => 0
    buttonInputChanged := fun _ => 0
    buttonEventBuffer := RingBuffer.new sizeofEvent BUTTON_EVENT_BUFFER_SIZE mem0
    column := COLS - 1
    bamCount := BAM_STAGES - 1
    OCR1A := (BAM_INIT_COUNT <<< (BAM_STAGES - 2)) % 65536
    halted := false }

/-- The `ButtonEvent` built in one iteration of the row loop (main.cpp:203-211). -/
def mkEvent (column last row : Nat) : ButtonEvent :=
  { column := (column + COLS - 1) % COLS
    row := row
    isPressed := if last &&& (1 <<< row) ≠ 0 then 0 else 1 }

/-- The row loop of the commit (main.cpp:200-219) over the remaining rows:
the queue afterwards and `false` when a `write` returned `false`, in which case
the loop `while(1)` is entered and the remaining rows are never processed. -/
def commitLoop (column last changed : Nat) :
    List Nat → RingBuffer ButtonEvent → RingBuffer ButtonEvent × Bool
  | [], buf => (buf, true)
  | row :: rows, buf =>
    if changed &&& (1 <<< row) ≠ 0 then
      if (buf.write (mkEvent column last row)).2 = true then
        commitLoop column last changed rows (buf.write (mkEvent column last row)).1
      else ((buf.write (mkEvent column last row)).1, false)
    else commitLoop column last changed rows buf

/-- The debounce block executed when `bamCount == 0` (main.cpp:188-227). -/
def debounce (s : State) (dataIn : Nat) : State :=
  let column := s.column
  if dataIn ≠ s.lastButtonInput column then
    let changes := dataIn ^^^ s.lastButtonInput column
    if changes ≠ s.buttonInputChanged column then
      { s with
        buttonInputCounter := Function.update s.buttonInputCounter column 0
        buttonInputChanged := Function.update s.buttonInputChanged column changes }
    else if s.buttonInputCounter column < BUTTON_INPUT_DEBOUNCE_CONSTANT then
      let counter := (s.buttonInputCounter column + 1) % 256
      let s := { s with buttonInputCounter := Function.update s.buttonInputCounter column counter }
      if counter ≥ BUTTON_INPUT_DEBOUNCE_CONSTANT then
        let r := commitLoop column (s.lastButtonInput column) (s.buttonInputChanged column)
          (List.range ROWS) s.buttonEventBuffer
        if r.2 = true then
          { s with
            buttonEventBuffer := r.1
            lastButtonInput := Function.update s.lastButtonInput column dataIn }
        else { s with buttonEventBuffer := r.1, halted := true }
      else s
    else s
  else { s with buttonInputCounter := Function.update s.buttonInputCounter column 0 }

/-- The five bytes passed to `SPI.transfer` (main.cpp:175-179) for the cursor
`(column, bamCount)`. -/
def spiOut (rgb : FrameBuffer) (column bamCount : Nat) : List Nat :=
  let tmpCol := (1 <<< column) % 65536
  [ (65535 ^^^ rgb bamCount column RGB_RED) % 256,
    (65535 ^^^ rgb bamCount column RGB_BLUE) % 256,
    (65535 ^^^ rgb bamCount column RGB_GREEN) % 256,
    (tmpCol >>> 8) % 256,
    tmpCol % 256 ]

/-- The timer and cursor update at the start of the interrupt routine
(main.cpp:158-165). -/
def advance (s : State) : State :=
  { s with
    OCR1A := if s.OCR1A ≥ (BAM_INIT_COUNT <<< (BAM_STAGES - 1)) % 65536 then BAM_INIT_COUNT
      else (s.OCR1A <<< 1) % 65536
    column := if s.bamCount ≥ BAM_STAGES - 1 then (s.column + 1) % COLS else s.column
    bamCount := (s.bamCount + 1) % BAM_STAGES }

/-- The interrupt routine `ISR(TIMER1_COMPA_vect)` (main.cpp:156-230). `dataIn`
is the byte returned by the first `SPI.transfer`. The result is the state
after the tick and the bytes shifted out. A halted system executes no tick. -/
def ISR (s : State) (dataIn : Nat) : State × List Nat :=
  if s.halted then (s, [])
  else
    let s := advance s
    let out := spiOut s.rgb s.column s.bamCount
    if s.bamCount = 0 then (debounce s dataIn, out) else (s, out)

/-- A run of ticks, one `dataIn` byte per tick. -/
def runISR (s : State) (ins : List Nat) : State :=
  ins.foldl (fun s dataIn => (ISR s dataIn).1) s

/-! ## Specification-side definitions -/

/-- The events of a commit, in the words of the source loop: one per row of
`rows` whose bit is set in `changed`. -/
def commitEvents (column last changed : Nat) (rows : List Nat) : List ButtonEvent :=
  rows.filterMap (fun row =>
    if changed &&& (1 <<< row) ≠ 0 then some (mkEvent column last row) else none)

/-- The events a confirmed transition of a column from reading `last` to
reading `d` has to produce: one per row `0..5` whose bit differs, pressed when
the bit went from 0 to 1. `c` is the cursor column of the scan, the button
column is the one latched before it. -/
def expectedEvents (c last d : Nat) : List ButtonEvent :=
  (List.range 6).filterMap (fun r =>
    if d.testBit r ≠ last.testBit r then
      some { column := (c + 9) % 10, row := r,
             isPressed := if (!last.testBit r && d.testBit r) then 1 else 0 }
    else none)

/-- The debounce variables of one column: `lastButtonInput`,
`buttonInputCounter`, `buttonInputChanged`. -/
def colState (s : State) (c : Nat) : Nat × Nat × Nat :=
  (s.lastButtonInput c, s.buttonInputCounter c, s.buttonInputChanged c)

/-- The index of the debounce variables that the next tick processes: the
column cursor after the advance, when the system runs and the stage after the
advance is 0. -/
def scanColumn (s : State) : Option Nat :=
  if s.halted then none
  else if (advance s).bamCount = 0 then some (advance s).column
  else none

/-- Whenever the counter of a column stands at 1, the most recent scan of that
column read the value that `buttonInputChanged` was computed from. -/
def CounterInv (s : State) (g : Nat → Option Nat) : Prop :=
  ∀ c, s.buttonInputCounter c = 1 →
    ∃ d, g c = some d ∧ d ^^^ s.lastButtonInput c = s.buttonInputChanged c

/-- The atomic steps of the system: a timer tick with the byte read back, a
host poll, a host message of `bytes` bytes, and the stores of the main program
`loop()` into `rgb` (main.cpp:145-147), which ticks may interrupt anywhere, so
that between two ticks the frame buffer may take any new content. -/
inductive Step where
  | tick (dataIn : Nat)
  | poll
  | receive (bytes : Nat) (wire : Nat → Nat)
  | paint (rgb : FrameBuffer)

/-- One step of the system. The handlers run from interrupts and the main
program is suspended while the interrupt routine runs, so nothing runs once the
system is halted. -/
def State.step (colors : Nat → Nat → Nat) (s : State) : Step → State
  | Step.tick dataIn => (ISR s dataIn).1
  | Step.poll =>
    if s.halted then s
    else { s with buttonEventBuffer := (requestEvent s.buttonEventBuffer).1 }
  | Step.receive bytes wire =>
    if s.halted then s else { s with rgb := receiveEvent colors s.rgb bytes wire }
  | Step.paint rgb =>
    if s.halted then s else { s with rgb := rgb }

/-- A run of the system together with, for every index of the debounce
variables, the reading of its most recent scan (`none` before the first). -/
def runSteps (colors : Nat → Nat → Nat) :
    State × (Nat → Option Nat) → List Step → State × (Nat → Option Nat)
  | sg, [] => sg
  | (s, g), Step.tick dataIn :: steps =>
    runSteps colors
      (State.step colors s (Step.tick dataIn),
        match scanColumn s with
        | some c => Function.update g c (some dataIn)
        | none => g) steps
  | (s, g), st :: steps => runSteps colors (State.step colors s st, g) steps

/-- Ten distinct button events, used as queue input. -/
def tenEvents : List ButtonEvent :=
  (List.range 10).map (fun i => { column := i, row := 0, isPressed := 1 })

/-- The event queue as constructed by `setup()` for a 3-byte `ButtonEvent`. -/
def eventQueue : RingBuffer ButtonEvent :=
  RingBuffer.new 3 BUTTON_EVENT_BUFFER_SIZE (fun _ => { column := 0, row := 0, isPressed := 0 })

/-- The state after `setup()` with 3-byte events and zeroed queue memory. -/
def initState : State :=
  State.init 3 (fun _ => { column := 0, row := 0, isPressed := 0 })

/-- The four bytes of a colour command as delivered by `Wire.read()`. -/
def cmd (row column isOn color : Nat) : Nat → Nat :=
  fun k => if k = 0 then row else if k = 1 then column else if k = 2 then isOn else color

/-- The pointers formed by the constructor and the methods of a ring buffer of
`size` elements of `sizeofT` bytes, whose block starts at byte address
`startAddr`, stay inside the 16-bit address space without wrapping: for
`size ≥ 1` the element after `endAddr`, at byte offset
`((size - 1) * sizeofT + 1) * sizeofT`, is still below `2 ^ 16`; for
`size = 0` the end pointer, `sizeofT * sizeofT` bytes below `startAddr`, is
not below address 0. -/
def InAddressSpace (startAddr sizeofT size : Nat) : Prop :=
  1 ≤ sizeofT ∧
    ((size = 0 ∧ sizeofT * sizeofT ≤ startAddr ∧ startAddr < 65536) ∨
      (1 ≤ size ∧ startAddr + ((size - 1) * sizeofT + 1) * sizeofT < 65536))

/-- A call on the queue. -/
inductive Op (α : Type) where
  | write (x : α)
  | read

/-- What a call on the queue returned. -/
inductive Res (α : Type) where
  | wrote (x : α) (ok : Bool)
  | got (r : Option α)

/-- Run a sequence of calls on a ring buffer: final state and the results. -/
def runOps {α : Type} : RingBuffer α → List (Op α) → RingBuffer α × List (Res α)
  | rb, [] => (rb, [])
  | rb, Op.write x :: ops =>
    let r := runOps (rb.write x).1 ops
    (r.1, Res.wrote x (rb.write x).2 :: r.2)
  | rb, Op.read :: ops =>
    let r := runOps rb.read.1 ops
    (r.1, Res.got rb.read.2 :: r.2)

/-- The bounded list queue: a list of at most `cap` items, written at the
back, read at the front. -/
def queueOps {α : Type} (cap : Nat) : List α → List (Op α) → List α × List (Res α)
  | q, [] => (q, [])
  | q, Op.write x :: ops =>
    if q.length < cap then
      let r := queueOps cap (q ++ [x]) ops
      (r.1, Res.wrote x true :: r.2)
    else
      let r := queueOps cap q ops
      (r.1, Res.wrote x false :: r.2)
  | [], Op.read :: ops =>
    let r := queueOps cap [] ops
    (r.1, Res.got none :: r.2)
  | y :: q, Op.read :: ops =>
    let r := queueOps cap q ops
    (r.1, Res.got (some y) :: r.2)

/-- The items accepted by the successful writes, in order. -/
def accepted {α : Type} (rs : List (Res α)) : List α :=
  rs.filterMap (fun r => match r with
    | Res.wrote x true => some x
    | _ => none)

/-- The items returned by the successful reads, in order. -/
def returned {α : Type} (rs : List (Res α)) : List α :=
  rs.filterMap (fun r => match r with
    | Res.got (some y) => some y
    | _ => none)

/-- Write the items of a list one after the other: final state and the
returned flags. -/
def writeAll {α : Type} : RingBuffer α → List α → RingBuffer α × List Bool
  | rb, [] => (rb, [])
  | rb, x :: xs =>
    let r := writeAll (rb.write x).1 xs
    (r.1, (rb.write x).2 :: r.2)

/-- A state one tick before a stage-0 scan of index 0, in which the counter of
index 0 stands at 1 for the pending change of row 0 and the event queue, here
of two slots, is full. -/
def fullState : State :=
  { initState with
    buttonInputCounter := fun _ => 1
    buttonInputChanged := fun _ => 1
    buttonEventBuffer :=
      (writeAll (RingBuffer.new 1 2 (fun _ => { column := 0, row := 0, isPressed := 0 }))
        [{ column := 3, row := 2, isPressed := 1 }]).1 }

/-- The state after three scans of index 9 that all read 1, starting from the
state after `setup()`: the press of row 0 has just been committed. -/
def stuckState : State :=
  debounce (debounce (debounce initState 1) 1) 1

/-- The 8-bit complement of a byte. -/
def compl8 (x : Nat) : Nat := 255 - x % 256
/-- The position of the cursor in the cycle of 40 (column, stage) pairs. -/
def cursorPos (s : State) : Nat := s.column * 4 + s.bamCount

/-- The arguments of one call `setColor(row, col, red, green, blue)`. -/
structure Call where
  row : Nat
  col : Nat
  red : Nat
  green : Nat
  blue : Nat

/-- The frame buffer after a sequence of `setColor` calls. -/
def runCalls (fb : FrameBuffer) (calls : List Call) : FrameBuffer :=
  calls.foldl (fun fb c => setColor fb c.row c.col c.red c.green c.blue) fb

/-- The intensity most recently written to cell `(row, col)` for channel `ch`
by a sequence of calls, `v0` if the cell was not written. -/
def lastWritten (v0 : Nat) (calls : List Call) (row col ch : Nat) : Nat :=
  calls.foldl (fun v c => if c.row = row ∧ c.col = col then chan c.red c.green c.blue ch else v) v0

/-- The events a commit has to enqueue for cursor column `c`, stable reading
`last` and pending mask `mask`: in ascending row order one event per row
`0..5` whose bit is set in `mask`, for the column latched before `c`, pressed
exactly when the bit of `last` is 0. -/
def commitSpec (c last mask : Nat) : List ButtonEvent :=
  (List.range 6).filterMap (fun r =>
    if mask.testBit r then
      some { column := (c + 9) % 10, row := r, isPressed := if last.testBit r then 0 else 1 }
    else none)
/-- A state one tick before a stage-0 scan of index 0 in which the counter of
index 0 stands at 1 for the pending change of row 0, with an empty queue. -/
def readyState : State :=
  { initState with
    buttonInputCounter := fun _ => 1
    buttonInputChanged := fun _ => 1 }

/-- The events appended to the event queue by one tick: the readable contents
after the tick without the contents before it. -/
def tickEvents (s : State) (d : Nat) : List ButtonEvent :=
  (ISR s d).1.buttonEventBuffer.contents.drop s.buttonEventBuffer.contents.length

/-- All events enqueued during a run, in enqueue order. -/
def eventLog (colors : Nat → Nat → Nat) : State → List Step → List ButtonEvent
  | _, [] => []
  | s, Step.tick dataIn :: steps =>
    tickEvents s dataIn ++ eventLog colors (State.step colors s (Step.tick dataIn)) steps
  | s, st :: steps => eventLog colors (State.step colors s st) steps

/-- The `isPressed` values of the logged events of one button, in order. -/
def pressSeq (log : List ButtonEvent) (col row : Nat) : List Nat :=
  (log.filter (fun e => decide (e.column = col ∧ e.row = row))).map (fun e => e.isPressed)

/-- The list is `e, 1 - e, e, 1 - e, ...`. -/
def alternates : Nat → List Nat → Bool
  | _, [] => true
  | e, x :: xs => decide (x = e) && alternates (1 - e) xs

/-- The `isPressed` value the next event of a row must carry, given the
stable reading of its column. -/
def expect (last row : Nat) : Nat := if last.testBit row then 0 else 1

/-! ## Frame buffer lemmas -/

theorem setColorStage_apply (row col red green blue : Nat) (fb : FrameBuffer) (i i' col' ch' : Nat) :
    setColorStage row col red green blue fb i i' col' ch' =
      if i' = i ∧ col' = col ∧ ch' < 3 then stageVal (fb i col ch') row (chan red green blue ch') i
      else fb i' col' ch' := by
  by_cases hi : i' = i
  · by_cases hc : col' = col
    · subst hi; subst hc
      rcases (by omega : ch' = 0 ∨ ch' = 1 ∨ ch' = 2 ∨ 3 ≤ ch') with h | h | h | h
      · subst h
        by_cases h1 : red &&& ((1 <<< i') % 256) = 0 <;>
        by_cases h2 : green &&& ((1 <<< i') % 256) = 0 <;>
        by_cases h3 : blue &&& ((1 <<< i') % 256) = 0 <;>
        simp [setColorStage, setCell, stageVal, chan, RGB_RED, RGB_GREEN, RGB_BLUE, h1, h2, h3]
      · subst h
        by_cases h1 : red &&& ((1 <<< i') % 256) = 0 <;>
        by_cases h2 : green &&& ((1 <<< i') % 256) = 0 <;>
        by_cases h3 : blue &&& ((1 <<< i') % 256) = 0 <;>
        simp [setColorStage, setCell, stageVal, chan, RGB_RED, RGB_GREEN, RGB_BLUE, h1, h2, h3]
      · subst h
        by_cases h1 : red &&& ((1 <<< i') % 256) = 0 <;>
        by_cases h2 : green &&& ((1 <<< i') % 256) = 0 <;>
        by_cases h3 : blue &&& ((1 <<< i') % 256) = 0 <;>
        simp [setColorStage, setCell, stageVal, chan, RGB_RED, RGB_GREEN, RGB_BLUE, h1, h2, h3]
      · have e0 : ch' ≠ 0 := by omega
        have e1 : ch' ≠ 1 := by omega
        have e2 : ch' ≠ 2 := by omega
        have e3 : ¬ ch' < 3 := by omega
        by_cases h1 : red &&& ((1 <<< i') % 256) = 0 <;>
        by_cases h2 : green &&& ((1 <<< i') % 256) = 0 <;>
        by_cases h3 : blue &&& ((1 <<< i') % 256) = 0 <;>
        simp [setColorStage, setCell, RGB_RED, RGB_GREEN, RGB_BLUE, h1, h2, h3, e0, e1, e2, e3]
    · by_cases h1 : red &&& ((1 <<< i) % 256) = 0 <;>
      by_cases h2 : green &&& ((1 <<< i) % 256) = 0 <;>
      by_cases h3 : blue &&& ((1 <<< i) % 256) = 0 <;>
      simp [setColorStage, setCell, h1, h2, h3, hi, hc]
  · by_cases h1 : red &&& ((1 <<< i) % 256) = 0 <;>
    by_cases h2 : green &&& ((1 <<< i) % 256) = 0 <;>
    by_cases h3 : blue &&& ((1 <<< i) % 256) = 0 <;>
    simp [setColorStage, setCell, h1, h2, h3, hi]

theorem setColor_apply (fb : FrameBuffer) (row col red green blue i' col' ch' : Nat) :
    setColor fb row col red green blue i' col' ch' =
      if row < 6 ∧ col < 10 ∧ i' < 4 ∧ col' = col ∧ ch' < 3 then
        stageVal (fb i' col ch') row (chan red green blue ch') i'
      else fb i' col' ch' := by
  unfold setColor
  by_cases hr : row ≥ ROWS
  · have : ¬ row < 6 := by simpa [ROWS] using hr
    simp [hr, this]
  by_cases hc : col ≥ COLS
  · have : ¬ col < 10 := by simpa [COLS] using hc
    simp [hr, hc, this]
  have hr6 : row < 6 := by simpa [ROWS] using hr
  have hc10 : col < 10 := by simpa [COLS] using hc
  have hrange : List.range 4 = [0, 1, 2, 3] := by decide
  rw [if_neg hr, if_neg hc, hrange]
  simp only [List.foldl, setColorStage_apply]
  by_cases h1 : col' = col
  · by_cases h2 : ch' < 3
    · rcases (by omega : i' = 0 ∨ i' = 1 ∨ i' = 2 ∨ i' = 3 ∨ 4 ≤ i') with h | h | h | h | h
      · subst h; simp [h1, h2, hr6, hc10]
      · subst h; simp [h1, h2, hr6, hc10]
      · subst h; simp [h1, h2, hr6, hc10]
      · subst h; simp [h1, h2, hr6, hc10]
      · have e0 : i' ≠ 0 := by omega
        have e1 : i' ≠ 1 := by omega
        have e2 : i' ≠ 2 := by omega
        have e3 : i' ≠ 3 := by omega
        have e4 : ¬ i' < 4 := by omega
        simp [e0, e1, e2, e3, e4]
    · simp [h2]
  · simp [h1]

theorem rowBit_eq_toNat (x r : Nat) : rowBit x r = (x.testBit r).toNat := by
  rw [Nat.toNat_testBit, rowBit, Nat.shiftRight_eq_div_pow]

theorem shl_mod (i : Nat) (h : i < 8) : (1 <<< i) % 256 = 2 ^ i := by
  rw [Nat.one_shiftLeft]
  apply Nat.mod_eq_of_lt
  calc 2 ^ i < 2 ^ 8 := Nat.pow_lt_pow_right (by decide) h
    _ = 256 := by norm_num

theorem and_mask_ne_zero (v i : Nat) (h : i < 8) :
    v &&& ((1 <<< i) % 256) ≠ 0 ↔ v.testBit i = true := by
  rw [shl_mod i h, Nat.and_two_pow]
  cases v.testBit i <;> simp

theorem testBit_clearMask (x row j : Nat) (h : row < 8) :
    (clearMask x ((1 <<< row) % 256)).testBit j = (decide (j < 8) && decide (j ≠ row) && x.testBit j) := by
  rw [shl_mod row h, clearMask, show (256 : Nat) = 2 ^ 8 by norm_num, Nat.testBit_mod_two_pow,
    Nat.testBit_and, Nat.testBit_xor, show (65535 : Nat) = 2 ^ 16 - 1 by norm_num,
    Nat.testBit_two_pow_sub_one, Nat.testBit_two_pow]
  by_cases h1 : j < 8
  · have : j < 16 := by omega
    by_cases h2 : j = row
    · simp [h1, h2, this]; omega
    · have h3 : row ≠ j := fun e => h2 e.symm
      simp [h1, h2, h3, this]
  · simp [h1]

theorem testBit_setMask (x row j : Nat) (h : row < 8) :
    (setMask x ((1 <<< row) % 256)).testBit j = (decide (j < 8) && (x.testBit j || decide (j = row))) := by
  rw [shl_mod row h, setMask, show (256 : Nat) = 2 ^ 8 by norm_num, Nat.testBit_mod_two_pow,
    Nat.testBit_or, Nat.testBit_two_pow]
  by_cases h2 : j = row
  · simp [h2]
  · have h3 : row ≠ j := fun e => h2 e.symm
    simp [h2, h3]

theorem testBit_stageVal (x row v i j : Nat) (hr : row < 8) (hi : i < 8) :
    (stageVal x row v i).testBit j =
      if j = row then v.testBit i else (decide (j < 8) && x.testBit j) := by
  unfold stageVal
  by_cases hv : v.testBit i = true
  · rw [if_pos ((and_mask_ne_zero v i hi).2 hv), testBit_setMask _ _ _ hr, testBit_clearMask _ _ _ hr]
    by_cases h2 : j = row
    · subst h2; simp [hv, hr]
    · simp [h2]
  · rw [if_neg (fun h => hv ((and_mask_ne_zero v i hi).1 h)), testBit_clearMask _ _ _ hr]
    by_cases h2 : j = row
    · simp [h2, hv]
    · simp [h2]

theorem rowBit_stageVal (x row v i : Nat) (hr : row < 8) (hi : i < 8) :
    rowBit (stageVal x row v i) row = rowBit v i := by
  rw [rowBit_eq_toNat, rowBit_eq_toNat, testBit_stageVal _ _ _ _ _ hr hi, if_pos rfl]

theorem rowBit_sum (v : Nat) (h : v < 16) :
    rowBit v 0 + 2 * rowBit v 1 + 4 * rowBit v 2 + 8 * rowBit v 3 = v := by
  interval_cases v <;> decide

/-! ## Ring buffer lemmas -/

theorem write_snd {α : Type} (rb : RingBuffer α) (x : α) :
    (rb.write x).2 = decide (rb.nextElement ≠ rb.tail) := by
  unfold RingBuffer.write
  by_cases h : rb.nextElement = rb.tail <;> simp [h]

theorem write_fst_of_full {α : Type} (rb : RingBuffer α) (x : α)
    (h : rb.nextElement = rb.tail) : (rb.write x).1 = rb := by
  unfold RingBuffer.write
  simp [h]

theorem write_fst_of_room {α : Type} (rb : RingBuffer α) (x : α)
    (h : rb.nextElement ≠ rb.tail) :
    (rb.write x).1 =
      { rb with mem := Function.update rb.mem rb.head x, head := rb.nextElement } := by
  unfold RingBuffer.write
  simp [h]

theorem full_iff_count {α : Type} (rb : RingBuffer α) (hwf : rb.WF) :
    rb.nextElement = rb.tail ↔ rb.count = rb.endAddr := by
  obtain ⟨h1, h2⟩ := hwf
  unfold RingBuffer.nextElement RingBuffer.count
  split_ifs <;> omega

theorem empty_iff_count {α : Type} (rb : RingBuffer α) (hwf : rb.WF) :
    rb.head = rb.tail ↔ rb.count = 0 := by
  obtain ⟨h1, h2⟩ := hwf
  unfold RingBuffer.count
  split <;> omega

theorem count_le {α : Type} (rb : RingBuffer α) (hwf : rb.WF) : rb.count ≤ rb.endAddr := by
  obtain ⟨h1, h2⟩ := hwf
  unfold RingBuffer.count
  split <;> omega

theorem contents_length {α : Type} (rb : RingBuffer α) : rb.contents.length = rb.count := by
  simp [RingBuffer.contents]

theorem write_room {α : Type} (rb : RingBuffer α) (x : α) (hwf : rb.WF)
    (h : rb.nextElement ≠ rb.tail) :
    (rb.write x).1.WF ∧ (rb.write x).1.endAddr = rb.endAddr ∧ (rb.write x).1.tail = rb.tail ∧
      (rb.write x).1.size = rb.size ∧
      (rb.write x).1.count = rb.count + 1 ∧ (rb.write x).1.contents = rb.contents ++ [x] := by
  rw [write_fst_of_room rb x h]
  obtain ⟨h1, h2⟩ := hwf
  have hn : rb.nextElement = if rb.head + 1 > rb.endAddr then 0 else rb.head + 1 := rfl
  have hcount : RingBuffer.count
      ({ rb with mem := Function.update rb.mem rb.head x, head := rb.nextElement }) =
      rb.count + 1 := by
    simp only [RingBuffer.count]
    rw [hn] at h ⊢
    split_ifs at h ⊢ <;> omega
  refine ⟨?_, rfl, rfl, rfl, hcount, ?_⟩
  · refine ⟨?_, h2⟩
    show rb.nextElement ≤ rb.endAddr
    rw [hn]; split <;> omega
  · unfold RingBuffer.contents
    rw [hcount, List.range_succ, List.map_append]
    congr 1
    · apply List.map_congr_left
      intro i hi
      have hi' : i < rb.count := List.mem_range.1 hi
      have hne : rb.slot i ≠ rb.head := by
        unfold RingBuffer.count at hi'
        unfold RingBuffer.slot
        rw [hn] at h
        split_ifs at h hi' ⊢ <;> omega
      show Function.update rb.mem rb.head x (rb.slot i) = rb.mem (rb.slot i)
      exact Function.update_noteq hne _ _
    · have hs : rb.slot rb.count = rb.head := by
        unfold RingBuffer.count RingBuffer.slot
        rw [hn] at h
        split_ifs at h ⊢ <;> omega
      show [Function.update rb.mem rb.head x (rb.slot rb.count)] = [x]
      rw [hs, Function.update_same]

theorem read_snd_none_iff {α : Type} (rb : RingBuffer α) :
    rb.read.2 = none ↔ rb.head = rb.tail := by
  unfold RingBuffer.read
  by_cases h : rb.head = rb.tail <;> simp [h]

theorem read_of_empty {α : Type} (rb : RingBuffer α) (h : rb.head = rb.tail) :
    rb.read = (rb, none) := by
  unfold RingBuffer.read
  simp [h]

theorem read_of_nonempty {α : Type} (rb : RingBuffer α) (h : rb.head ≠ rb.tail) :
    rb.read = ({ rb with tail := if rb.tail + 1 > rb.endAddr then 0 else rb.tail + 1 },
      some (rb.mem rb.tail)) := by
  unfold RingBuffer.read
  simp [h]

theorem read_nonempty {α : Type} (rb : RingBuffer α) (hwf : rb.WF) (h : rb.head ≠ rb.tail) :
    rb.read.1.WF ∧ rb.read.1.endAddr = rb.endAddr ∧ rb.read.1.head = rb.head ∧
      rb.read.1.mem = rb.mem ∧ rb.read.1.size = rb.size ∧
      rb.count = rb.read.1.count + 1 ∧
      ∃ y, rb.read.2 = some y ∧ rb.contents = y :: rb.read.1.contents := by
  rw [read_of_nonempty rb h]
  obtain ⟨h1, h2⟩ := hwf
  have hcount : rb.count = RingBuffer.count
      { rb with tail := if rb.tail + 1 > rb.endAddr then 0 else rb.tail + 1 } + 1 := by
    simp only [RingBuffer.count]
    split_ifs <;> omega
  refine ⟨?_, rfl, rfl, rfl, rfl, hcount, rb.mem rb.tail, rfl, ?_⟩
  · refine ⟨h1, ?_⟩
    show (if rb.tail + 1 > rb.endAddr then 0 else rb.tail + 1) ≤ rb.endAddr
    split <;> omega
  · unfold RingBuffer.contents
    rw [hcount, List.range_succ_eq_map, List.map_cons, List.map_map]
    congr 1
    · simp [RingBuffer.slot, h2]
    · apply List.map_congr_left
      intro i hi
      have hi' := List.mem_range.1 hi
      have hs : rb.slot (i + 1) = RingBuffer.slot
          { rb with tail := if rb.tail + 1 > rb.endAddr then 0 else rb.tail + 1 } i := by
        simp only [RingBuffer.count] at hi'
        simp only [RingBuffer.slot]
        split_ifs at hi' ⊢ <;> omega
      show rb.mem (rb.slot (i + 1)) = rb.mem _
      rw [hs]

theorem runOps_refines {α : Type} (rb : RingBuffer α) (hwf : rb.WF) (ops : List (Op α)) :
    (runOps rb ops).2 = (queueOps rb.endAddr rb.contents ops).2 ∧
      (runOps rb ops).1.contents = (queueOps rb.endAddr rb.contents ops).1 ∧
      (runOps rb ops).1.WF ∧ (runOps rb ops).1.endAddr = rb.endAddr := by
  induction ops generalizing rb with
  | nil => exact ⟨by simp [runOps, queueOps], by simp [runOps, queueOps], hwf, rfl⟩
  | cons op ops ih =>
    cases op with
    | write x =>
      by_cases h : rb.nextElement = rb.tail
      · have hfull : ¬ rb.contents.length < rb.endAddr := by
          rw [contents_length, (full_iff_count rb hwf).1 h]; omega
        have h2 : (rb.write x).2 = false := by rw [write_snd]; simp [h]
        have h1 := write_fst_of_full rb x h
        have := ih rb hwf
        simp only [runOps, queueOps, h1, h2, if_neg hfull]
        exact ⟨by rw [this.1], this.2⟩
      · have hroom : rb.contents.length < rb.endAddr := by
          rw [contents_length]
          have := count_le rb hwf
          have := mt (full_iff_count rb hwf).2 h
          omega
        have h2 : (rb.write x).2 = true := by rw [write_snd]; simp [h]
        obtain ⟨w1, w2, _, _, _, w6⟩ := write_room rb x hwf h
        have := ih (rb.write x).1 w1
        rw [w2, w6] at this
        simp only [runOps, queueOps, h2, if_pos hroom]
        exact ⟨by rw [this.1], this.2⟩
    | read =>
      by_cases h : rb.head = rb.tail
      · have hc : rb.contents = [] := by
          apply List.eq_nil_of_length_eq_zero
          rw [contents_length]; exact (empty_iff_count rb hwf).1 h
        have hr := read_of_empty rb h
        have := ih rb hwf
        rw [hc] at this ⊢
        simp only [runOps, queueOps, hr]
        exact ⟨by rw [this.1], this.2⟩
      · obtain ⟨r1, r2, _, _, _, _, y, hy, hc⟩ := read_nonempty rb hwf h
        have := ih rb.read.1 r1
        rw [r2] at this
        rw [hc]
        simp only [runOps, queueOps, hy]
        exact ⟨by rw [this.1], this.2⟩

theorem queueOps_accounting {α : Type} (cap : Nat) (q : List α) (ops : List (Op α)) :
    q ++ accepted (queueOps cap q ops).2 = returned (queueOps cap q ops).2 ++ (queueOps cap q ops).1 := by
  induction ops generalizing q with
  | nil => simp [queueOps, accepted, returned]
  | cons op ops ih =>
    cases op with
    | write x =>
      by_cases h : q.length < cap
      · have := ih (q ++ [x])
        simp only [queueOps, if_pos h]
        simp only [accepted, returned, List.filterMap_cons] at this ⊢
        simpa using this
      · have := ih q
        simp only [queueOps, if_neg h]
        simp only [accepted, returned, List.filterMap_cons] at this ⊢
        simpa using this
    | read =>
      cases q with
      | nil =>
        have := ih []
        simp only [queueOps]
        simp only [accepted, returned, List.filterMap_cons] at this ⊢
        simpa using this
      | cons y q =>
        have := ih q
        simp only [queueOps]
        simp only [accepted, returned, List.filterMap_cons] at this ⊢
        simpa using this

theorem new_WF {α : Type} (sizeofT size : Nat) (mem0 : Nat → α) :
    (RingBuffer.new sizeofT size mem0).WF ∧ (RingBuffer.new sizeofT size mem0).contents = [] := by
  constructor
  · exact ⟨Nat.zero_le _, Nat.zero_le _⟩
  · simp [RingBuffer.contents, RingBuffer.count, RingBuffer.new]

/-! ## Claims on the frame buffer -/

theorem setColor_same (fb : FrameBuffer) (row col red green blue i ch : Nat)
    (hrow : row < 6) (hcol : col < 10) (hi : i < 4) (hch : ch < 3) :
    setColor fb row col red green blue i col ch =
      stageVal (fb i col ch) row (chan red green blue ch) i := by
  rw [setColor_apply, if_pos ⟨hrow, hcol, hi, rfl, hch⟩]

theorem decode_setColor (fb : FrameBuffer) (row col red green blue ch : Nat)
    (hrow : row < 6) (hcol : col < 10) (hch : ch < 3) (hv : chan red green blue ch < 16) :
    decode (setColor fb row col red green blue) row col ch = chan red green blue ch := by
  have h8 : row < 8 := by omega
  unfold decode
  rw [setColor_same fb row col red green blue 0 ch hrow hcol (by decide) hch,
    setColor_same fb row col red green blue 1 ch hrow hcol (by decide) hch,
    setColor_same fb row col red green blue 2 ch hrow hcol (by decide) hch,
    setColor_same fb row col red green blue 3 ch hrow hcol (by decide) hch,
    rowBit_stageVal _ _ _ _ h8 (by decide), rowBit_stageVal _ _ _ _ h8 (by decide),
    rowBit_stageVal _ _ _ _ h8 (by decide), rowBit_stageVal _ _ _ _ h8 (by decide)]
  exact rowBit_sum _ hv

/-- C1: after `setColor(row, col, red, green, blue)` with `row < 6`, `col < 10`
and intensities below 16, on any prior frame buffer, the 4-bit number read
from bit `row` of the four stage masks (stage 0 least significant) is the
intensity written, for each of the three channels; and for
`setColor(0, 0, 15, 0, 0)` bit 0 of the RED mask is set and bit 0 of the GREEN
and BLUE masks is clear in all four stages. -/
theorem bam_round_trip (fb : FrameBuffer) (row col red green blue : Nat)
    (hrow : row < 6) (hcol : col < 10) (hr : red < 16) (hg : green < 16) (hb : blue < 16) :
    (decode (setColor fb row col red green blue) row col RGB_RED = red ∧
      decode (setColor fb row col red green blue) row col RGB_GREEN = green ∧
      decode (setColor fb row col red green blue) row col RGB_BLUE = blue) ∧
    (∀ i, i < 4 →
      rowBit (setColor fb 0 0 15 0 0 i 0 RGB_RED) 0 = 1 ∧
      rowBit (setColor fb 0 0 15 0 0 i 0 RGB_GREEN) 0 = 0 ∧
      rowBit (setColor fb 0 0 15 0 0 i 0 RGB_BLUE) 0 = 0) := by
  refine ⟨⟨?_, ?_, ?_⟩, ?_⟩
  · exact decode_setColor fb row col red green blue RGB_RED hrow hcol (by decide) hr
  · exact decode_setColor fb row col red green blue RGB_GREEN hrow hcol (by decide) hg
  · exact decode_setColor fb row col red green blue RGB_BLUE hrow hcol (by decide) hb
  · intro i hi
    rw [setColor_same fb 0 0 15 0 0 i RGB_RED (by decide) (by decide) hi (by decide),
      setColor_same fb 0 0 15 0 0 i RGB_GREEN (by decide) (by decide) hi (by decide),
      setColor_same fb 0 0 15 0 0 i RGB_BLUE (by decide) (by decide) hi (by decide),
      rowBit_stageVal _ _ _ _ (by decide) (by omega),
      rowBit_stageVal _ _ _ _ (by decide) (by omega),
      rowBit_stageVal _ _ _ _ (by decide) (by omega)]
    interval_cases i <;> decide

theorem bam_round_trip_witness :
    (3 < 6 ∧ 7 < 10 ∧ 9 < 16 ∧ 6 < 16 ∧ 15 < 16) ∧
    (decode (setColor (fun _ _ _ => 255) 3 7 9 6 15) 3 7 RGB_RED = 9 ∧
      decode (setColor (fun _ _ _ => 255) 3 7 9 6 15) 3 7 RGB_GREEN = 6 ∧
      decode (setColor (fun _ _ _ => 255) 3 7 9 6 15) 3 7 RGB_BLUE = 15) :=
  ⟨by decide, (bam_round_trip (fun _ _ _ => 255) 3 7 9 6 15 (by decide) (by decide) (by decide)
    (by decide) (by decide)).1⟩

/-- C8: a colour command with `row ≥ 6` or `column ≥ 10` leaves the frame
buffer unchanged, whatever `isOn` and `colorIndex` are, through
`receiveEvent` and through both `setColor` overloads. -/
theorem bounds_safety (colors : Nat → Nat → Nat) (fb : FrameBuffer)
    (row column isOn color red green blue : Nat) (h : row ≥ 6 ∨ column ≥ 10) :
    receiveEvent colors fb 4 (cmd row column isOn color) = fb ∧
      setColorIndex colors fb row column color = fb ∧
      setColor fb row column red green blue = fb := by
  have key : ∀ r g b, setColor fb row column r g b = fb := by
    intro r g b
    unfold setColor
    rcases h with h | h
    · rw [if_pos (by simpa [ROWS] using h)]
    · by_cases h6 : row ≥ ROWS
      · rw [if_pos h6]
      · rw [if_neg h6, if_pos (by simpa [COLS] using h)]
  refine ⟨?_, key _ _ _, key _ _ _⟩
  unfold receiveEvent setColorIndex
  rw [if_pos rfl]
  show (if cmd row column isOn color 2 ≠ 0 then
      setColor fb row column _ _ _ else setColor fb row column 0 0 0) = fb
  split <;> exact key _ _ _

theorem bounds_safety_witness :
    (6 ≥ 6 ∨ 3 ≥ 10) ∧
      receiveEvent (fun c k => c + k) (fun i c ch => i + c + ch) 4 (cmd 6 3 1 200)
        = (fun i c ch => i + c + ch) :=
  ⟨by decide, (bounds_safety (fun c k => c + k) (fun i c ch => i + c + ch) 6 3 1 200 0 0 0
    (Or.inl (by decide))).1⟩

/-- C9: a colour command with `isOn = 0` for a cell with `row < 6`,
`column < 10` clears bit `row` of all four stage masks of all three channels
of that column, so that the cell decodes to (0,0,0), whatever the prior frame
buffer; the resulting frame buffer is the same for every colour index and
colour table. -/
theorem color_off (colors : Nat → Nat → Nat) (fb : FrameBuffer) (row column color : Nat)
    (hrow : row < 6) (hcol : column < 10) :
    (∀ i ch, i < 4 → ch < 3 →
      rowBit (receiveEvent colors fb 4 (cmd row column 0 color) i column ch) row = 0) ∧
    (∀ ch, ch < 3 → decode (receiveEvent colors fb 4 (cmd row column 0 color)) row column ch = 0) ∧
    (∀ colors2 color2, receiveEvent colors2 fb 4 (cmd row column 0 color2) =
      receiveEvent colors fb 4 (cmd row column 0 color)) := by
  have key : ∀ c k, receiveEvent c fb 4 (cmd row column 0 k) = setColor fb row column 0 0 0 := by
    intro c k
    simp [receiveEvent, cmd]
  refine ⟨?_, ?_, ?_⟩
  · intro i ch hi hch
    rw [key, setColor_same fb row column 0 0 0 i ch hrow hcol hi hch,
      rowBit_stageVal _ _ _ _ (by omega) (by omega)]
    have : chan 0 0 0 ch = 0 := by unfold chan; split_ifs <;> rfl
    rw [this]
    simp [rowBit]
  · intro ch hch
    have hz : chan 0 0 0 ch = 0 := by unfold chan; split_ifs <;> rfl
    rw [key]
    have := decode_setColor fb row column 0 0 0 ch hrow hcol hch (by rw [hz]; decide)
    rw [this, hz]
  · intro c2 k2
    rw [key, key]

theorem color_off_witness :
    (2 < 6 ∧ 4 < 10) ∧
      ∀ ch, ch < 3 → decode (receiveEvent (fun c k => c + k) (fun _ _ _ => 255) 4
        (cmd 2 4 0 77)) 2 4 ch = 0 :=
  ⟨by decide, (color_off (fun c k => c + k) (fun _ _ _ => 255) 2 4 77 (by decide)
    (by decide)).2.1⟩

/-! ## Claims on the event queue -/

theorem read_eq_head {α : Type} (rb : RingBuffer α) (hwf : rb.WF) :
    rb.read.2 = rb.contents.head? := by
  by_cases h : rb.head = rb.tail
  · have hc : rb.contents = [] := by
      apply List.eq_nil_of_length_eq_zero
      rw [contents_length]; exact (empty_iff_count rb hwf).1 h
    rw [read_of_empty rb h, hc]; rfl
  · obtain ⟨_, _, _, _, _, _, y, hy, hc⟩ := read_nonempty rb hwf h
    rw [hy, hc]; rfl

/-- C2 (evaluation at the failing input): on the event queue
`RingBuffer<ButtonEvent>(10)` with 3-byte events, ten consecutive writes into
the empty queue all return `true`, the tenth included; the ten items are then
all readable and the write cursor stands at element index 10, past the ten
allocated elements; the wrap-around element `endAddr` is at index 27. -/
theorem tenth_write_accepted :
    (writeAll eventQueue tenEvents).2 = List.replicate 10 true ∧
      (writeAll eventQueue tenEvents).1.contents = tenEvents ∧
      (writeAll eventQueue tenEvents).1.head = 10 ∧
      eventQueue.size = 10 ∧ eventQueue.endAddr = 27 := by
  decide

theorem new_endAddr {α : Type} (startAddr sizeofT size : Nat) (mem0 : Nat → α)
    (hfit : InAddressSpace startAddr sizeofT size) :
    (RingBuffer.new sizeofT size mem0).endAddr = (size - 1) * sizeofT := by
  obtain ⟨hk, h | h⟩ := hfit
  · obtain ⟨h0, _, _⟩ := h
    subst h0
    show (if 0 = 0 then 0 else ((0 + 65535) % 65536 * sizeofT) % 65536) = (0 - 1) * sizeofT
    rw [if_pos rfl]
    simp
  · obtain ⟨hs, hlt⟩ := h
    have hne : ¬ size = 0 := by omega
    show (if size = 0 then 0 else ((size + 65535) % 65536 * sizeofT) % 65536) = _
    rw [if_neg hne]
    have h1 : (size - 1) * sizeofT + 1 ≤ ((size - 1) * sizeofT + 1) * sizeofT :=
      Nat.le_mul_of_pos_right _ hk
    have h2 : size - 1 ≤ (size - 1) * sizeofT := Nat.le_mul_of_pos_right _ hk
    have h3 : (size + 65535) % 65536 = size - 1 := by omega
    rw [h3]
    exact Nat.mod_eq_of_lt (by omega)

/-- C4: the ring buffer refines the bounded list queue. For every ring buffer
whose pointers stay inside the address space, freshly constructed, and every
sequence of `write` and `read` calls on it, every call returns what the list
queue of capacity `(size - 1) * sizeof(T)` returns; the items accepted by the
successful writes are the items returned by the successful reads followed by
the items still readable, so the returned items are an initial segment of the
accepted ones; and a further read returns the oldest unread item, failing
exactly when there is none. -/
theorem fifo_refinement {α : Type} (startAddr sizeofT size : Nat) (mem0 : Nat → α)
    (ops : List (Op α)) (hfit : InAddressSpace startAddr sizeofT size) :
    (runOps (RingBuffer.new sizeofT size mem0) ops).2 =
        (queueOps ((size - 1) * sizeofT) [] ops).2 ∧
      accepted (runOps (RingBuffer.new sizeofT size mem0) ops).2 =
        returned (runOps (RingBuffer.new sizeofT size mem0) ops).2 ++
          (runOps (RingBuffer.new sizeofT size mem0) ops).1.contents ∧
      returned (runOps (RingBuffer.new sizeofT size mem0) ops).2 <+:
        accepted (runOps (RingBuffer.new sizeofT size mem0) ops).2 ∧
      (runOps (RingBuffer.new sizeofT size mem0) ops).1.read.2 =
        (runOps (RingBuffer.new sizeofT size mem0) ops).1.contents.head? := by
  obtain ⟨hwf, hnil⟩ := new_WF sizeofT size mem0
  obtain ⟨h1, h2, h3, _⟩ := runOps_refines (RingBuffer.new sizeofT size mem0) hwf ops
  rw [hnil, new_endAddr startAddr sizeofT size mem0 hfit] at h1 h2
  have hacc := queueOps_accounting ((size - 1) * sizeofT) [] ops
  rw [← h1, ← h2, List.nil_append] at hacc
  refine ⟨h1, hacc, ?_, read_eq_head _ h3⟩
  rw [hacc]
  exact List.prefix_append _ _

theorem fifo_refinement_witness :
    InAddressSpace 256 3 10 ∧
      (runOps (RingBuffer.new 3 10 (fun _ => 0))
          [Op.write 7, Op.write 8, Op.read, Op.read, Op.read]).2 =
        (queueOps ((10 - 1) * 3) []
          [Op.write 7, Op.write 8, Op.read, Op.read, Op.read]).2 :=
  ⟨by unfold InAddressSpace; decide,
    (fifo_refinement 256 3 10 (fun _ => 0) [Op.write 7, Op.write 8, Op.read, Op.read, Op.read]
      (by unfold InAddressSpace; decide)).1⟩

theorem write_atomic {α : Type} (rb : RingBuffer α) (x : α) :
    ((rb.write x).2 = false ↔
        (if rb.head + 1 > rb.endAddr then 0 else rb.head + 1) = rb.tail) ∧
      ((rb.write x).2 = false → (rb.write x).1 = rb) ∧
      ((rb.write x).2 = true →
        (rb.write x).1.mem = Function.update rb.mem rb.head x ∧
        (rb.write x).1.head = (if rb.head + 1 > rb.endAddr then 0 else rb.head + 1) ∧
        (rb.write x).1.tail = rb.tail ∧
        (rb.write x).1.endAddr = rb.endAddr ∧
        (rb.write x).1.size = rb.size) := by
  have hn : rb.nextElement = if rb.head + 1 > rb.endAddr then 0 else rb.head + 1 := rfl
  rw [← hn]
  by_cases h : rb.nextElement = rb.tail
  · have h2 : (rb.write x).2 = false := by rw [write_snd]; simp [h]
    refine ⟨⟨fun _ => h, fun _ => h2⟩, fun _ => write_fst_of_full rb x h, ?_⟩
    intro ht; rw [h2] at ht; cases ht
  · have h2 : (rb.write x).2 = true := by rw [write_snd]; simp [h]
    refine ⟨⟨?_, fun e => absurd e h⟩, ?_, ?_⟩
    · intro hf; rw [h2] at hf; cases hf
    · intro hf; rw [h2] at hf; cases hf
    · intro _
      rw [write_fst_of_room rb x h]
      exact ⟨rfl, rfl, rfl, rfl, rfl⟩

/-- C6 (evaluation at the failing input): on the event queue
`RingBuffer<ButtonEvent>(10)` with 3-byte events and nine unread items the
write cursor is at element 9 of the ten allocated elements and the read cursor
at element 0, so the slot after the write cursor, wrapping at the allocated
slots, is the slot at the read cursor. `write` nevertheless returns `true`,
stores the item, leaves the read cursor alone and moves the write cursor to
element 10: it wraps and refuses at element 27 only. -/
theorem full_queue_write_accepted :
    (writeAll eventQueue (tenEvents.take 9)).1.head = 9 ∧
      (writeAll eventQueue (tenEvents.take 9)).1.tail = 0 ∧
      (writeAll eventQueue (tenEvents.take 9)).1.size = 10 ∧
      ((writeAll eventQueue (tenEvents.take 9)).1.head + 1) %
        (writeAll eventQueue (tenEvents.take 9)).1.size =
          (writeAll eventQueue (tenEvents.take 9)).1.tail ∧
      ((writeAll eventQueue (tenEvents.take 9)).1.write
        { column := 9, row := 5, isPressed := 0 }).2 = true ∧
      ((writeAll eventQueue (tenEvents.take 9)).1.write
        { column := 9, row := 5, isPressed := 0 }).1.head = 10 ∧
      ((writeAll eventQueue (tenEvents.take 9)).1.write
        { column := 9, row := 5, isPressed := 0 }).1.tail = 0 ∧
      ((writeAll eventQueue (tenEvents.take 9)).1.write
        { column := 9, row := 5, isPressed := 0 }).1.contents =
          tenEvents.take 9 ++ [{ column := 9, row := 5, isPressed := 0 }] := by
  set_option maxRecDepth 100000 in decide

/-- C7: when the event queue is empty (read cursor equal to write cursor),
`requestEvent` transmits exactly the bytes 0xFF, 0xFF, 0xFF and leaves the
queue object unchanged, and so does every further poll. -/
theorem empty_poll_sentinel (buf : RingBuffer ButtonEvent) (h : buf.head = buf.tail) :
    requestEvent buf = (buf, [0xFF, 0xFF, 0xFF]) ∧
      ∀ n : Nat, requestEvent ((fun b => (requestEvent b).1)^[n] buf) = (buf, [0xFF, 0xFF, 0xFF]) := by
  have h1 : requestEvent buf = (buf, [0xFF, 0xFF, 0xFF]) := by
    unfold requestEvent
    rw [read_of_empty buf h]
  refine ⟨h1, ?_⟩
  intro n
  induction n with
  | zero => exact h1
  | succ n ih =>
    rw [Function.iterate_succ_apply, h1]
    exact ih

theorem empty_poll_sentinel_witness :
    eventQueue.head = eventQueue.tail ∧
      (requestEvent eventQueue).2 = [255, 255, 255] ∧
      (requestEvent (requestEvent eventQueue).1).2 = [255, 255, 255] :=
  ⟨by decide, congrArg Prod.snd (empty_poll_sentinel eventQueue (by decide)).1,
    congrArg Prod.snd ((empty_poll_sentinel eventQueue (by decide)).2 1)⟩


/-! ## Scheduler lemmas -/

theorem and_shl_ne_zero (x r : Nat) : x &&& (1 <<< r) ≠ 0 ↔ x.testBit r = true := by
  rw [Nat.one_shiftLeft, Nat.and_two_pow]
  cases x.testBit r <;> simp

theorem commitEvents_cons (column last changed row : Nat) (rows : List Nat) :
    commitEvents column last changed (row :: rows) =
      if changed &&& (1 <<< row) ≠ 0 then
        mkEvent column last row :: commitEvents column last changed rows
      else commitEvents column last changed rows := by
  unfold commitEvents
  by_cases h : changed &&& (1 <<< row) = 0 <;> simp [List.filterMap_cons, h]

theorem commitLoop_room (column last changed : Nat) (rows : List Nat)
    (buf : RingBuffer ButtonEvent) (hwf : buf.WF)
    (hroom : buf.count + (commitEvents column last changed rows).length ≤ buf.endAddr) :
    (commitLoop column last changed rows buf).2 = true ∧
      (commitLoop column last changed rows buf).1.WF ∧
      (commitLoop column last changed rows buf).1.endAddr = buf.endAddr ∧
      (commitLoop column last changed rows buf).1.tail = buf.tail ∧
      (commitLoop column last changed rows buf).1.contents =
        buf.contents ++ commitEvents column last changed rows := by
  induction rows generalizing buf with
  | nil => simp [commitLoop, commitEvents, hwf]
  | cons row rows ih =>
    rw [commitEvents_cons] at hroom ⊢
    by_cases h : changed &&& (1 <<< row) = 0
    · have hn : ¬ (changed &&& (1 <<< row) ≠ 0) := fun e => e h
      rw [if_neg hn] at hroom ⊢
      have := ih buf hwf hroom
      simp only [commitLoop, if_neg hn]
      exact this
    · have hp : changed &&& (1 <<< row) ≠ 0 := h
      rw [if_pos hp] at hroom ⊢
      rw [List.length_cons] at hroom
      have hnf : buf.nextElement ≠ buf.tail := by
        intro e
        have := (full_iff_count buf hwf).1 e
        omega
      have h2 : (buf.write (mkEvent column last row)).2 = true := by
        rw [write_snd]; simp [hnf]
      obtain ⟨w1, w2, w3, _, w5, w6⟩ := write_room buf (mkEvent column last row) hwf hnf
      have := ih (buf.write (mkEvent column last row)).1 w1 (by rw [w5, w2]; omega)
      simp only [commitLoop, if_pos hp, h2, if_true]
      rw [w2, w3, w6] at this
      refine ⟨this.1, this.2.1, this.2.2.1, this.2.2.2.1, ?_⟩
      rw [this.2.2.2.2]; simp

theorem commitLoop_overflow (column last changed : Nat) (rows : List Nat)
    (buf : RingBuffer ButtonEvent) (hwf : buf.WF)
    (hfull : buf.endAddr < buf.count + (commitEvents column last changed rows).length) :
    (commitLoop column last changed rows buf).2 = false := by
  induction rows generalizing buf with
  | nil =>
    have := count_le buf hwf
    simp [commitEvents] at hfull
    omega
  | cons row rows ih =>
    rw [commitEvents_cons] at hfull
    by_cases h : changed &&& (1 <<< row) = 0
    · have hn : ¬ (changed &&& (1 <<< row) ≠ 0) := fun e => e h
      rw [if_neg hn] at hfull
      simp only [commitLoop, if_neg hn]
      exact ih buf hwf hfull
    · have hp : changed &&& (1 <<< row) ≠ 0 := h
      rw [if_pos hp, List.length_cons] at hfull
      simp only [commitLoop, if_pos hp]
      by_cases hnf : buf.nextElement = buf.tail
      · have h2 : (buf.write (mkEvent column last row)).2 = false := by
          rw [write_snd]; simp [hnf]
        simp [h2]
      · have h2 : (buf.write (mkEvent column last row)).2 = true := by
          rw [write_snd]; simp [hnf]
        obtain ⟨w1, w2, _, _, w5, _⟩ := write_room buf (mkEvent column last row) hwf hnf
        rw [h2, if_pos rfl]
        exact ih _ w1 (by rw [w5, w2]; omega)

theorem commitEvents_eq_expected (c last d : Nat) :
    commitEvents c last (d ^^^ last) (List.range ROWS) = expectedEvents c last d := by
  unfold commitEvents expectedEvents
  have hR : ROWS = 6 := rfl
  rw [hR]
  congr 1
  funext r
  have hx : (d ^^^ last) &&& (1 <<< r) ≠ 0 ↔ d.testBit r ≠ last.testBit r := by
    rw [and_shl_ne_zero, Nat.testBit_xor]
    cases d.testBit r <;> cases last.testBit r <;> simp
  by_cases h : d.testBit r = last.testBit r
  · have : ¬ ((d ^^^ last) &&& (1 <<< r) ≠ 0) := fun e => hx.1 e h
    rw [if_neg this, if_neg (fun e => e h)]
  · rw [if_pos (hx.2 h), if_pos h]
    have hl : (last &&& (1 <<< r) ≠ 0) ↔ last.testBit r = true := and_shl_ne_zero last r
    unfold mkEvent
    simp only [COLS]
    congr 1
    have hcol : (c + 10 - 1) % 10 = (c + 9) % 10 := by congr 1
    cases hb : last.testBit r
    · have hd : d.testBit r = true := by
        cases hdd : d.testBit r
        · rw [hb, hdd] at h; exact absurd rfl h
        · rfl
      have : ¬ (last &&& (1 <<< r) ≠ 0) := fun e => by rw [hl.1 e] at hb; cases hb
      simp [hcol, if_neg this, hd]
    · have : last &&& (1 <<< r) ≠ 0 := hl.2 hb
      simp [hcol, if_pos this]

theorem debounce_same (s : State) (d : Nat) (h : d = s.lastButtonInput s.column) :
    debounce s d =
      { s with buttonInputCounter := Function.update s.buttonInputCounter s.column 0 } := by
  unfold debounce
  simp [h]

theorem debounce_new_mask (s : State) (d : Nat) (h : d ≠ s.lastButtonInput s.column)
    (hm : d ^^^ s.lastButtonInput s.column ≠ s.buttonInputChanged s.column) :
    debounce s d =
      { s with
        buttonInputCounter := Function.update s.buttonInputCounter s.column 0
        buttonInputChanged := Function.update s.buttonInputChanged s.column
          (d ^^^ s.lastButtonInput s.column) } := by
  unfold debounce
  simp [h, hm]

theorem debounce_count (s : State) (d : Nat) (h : d ≠ s.lastButtonInput s.column)
    (hm : d ^^^ s.lastButtonInput s.column = s.buttonInputChanged s.column)
    (hc : s.buttonInputCounter s.column = 0) :
    debounce s d =
      { s with buttonInputCounter := Function.update s.buttonInputCounter s.column 1 } := by
  unfold debounce
  simp [h, hm, hc, BUTTON_INPUT_DEBOUNCE_CONSTANT]

theorem debounce_commit (s : State) (d : Nat) (h : d ≠ s.lastButtonInput s.column)
    (hm : d ^^^ s.lastButtonInput s.column = s.buttonInputChanged s.column)
    (hc : s.buttonInputCounter s.column = 1) :
    debounce s d =
      if (commitLoop s.column (s.lastButtonInput s.column) (s.buttonInputChanged s.column)
          (List.range ROWS) s.buttonEventBuffer).2 = true then
        { s with
          buttonInputCounter := Function.update s.buttonInputCounter s.column 2
          buttonEventBuffer := (commitLoop s.column (s.lastButtonInput s.column)
            (s.buttonInputChanged s.column) (List.range ROWS) s.buttonEventBuffer).1
          lastButtonInput := Function.update s.lastButtonInput s.column d }
      else
        { s with
          buttonInputCounter := Function.update s.buttonInputCounter s.column 2
          buttonEventBuffer := (commitLoop s.column (s.lastButtonInput s.column)
            (s.buttonInputChanged s.column) (List.range ROWS) s.buttonEventBuffer).1
          halted := true } := by
  unfold debounce
  simp [h, hm, hc, BUTTON_INPUT_DEBOUNCE_CONSTANT]

theorem debounce_done (s : State) (d : Nat) (h : d ≠ s.lastButtonInput s.column)
    (hm : d ^^^ s.lastButtonInput s.column = s.buttonInputChanged s.column)
    (hc : 2 ≤ s.buttonInputCounter s.column) :
    debounce s d = s := by
  unfold debounce
  have : ¬ s.buttonInputCounter s.column < BUTTON_INPUT_DEBOUNCE_CONSTANT := by
    simp [BUTTON_INPUT_DEBOUNCE_CONSTANT]; omega
  simp [h, hm, this]

theorem scan_same (s : State) (d : Nat) (h : d = s.lastButtonInput s.column) :
    (debounce s d).buttonEventBuffer = s.buttonEventBuffer ∧ (debounce s d).halted = s.halted ∧
      (debounce s d).lastButtonInput = s.lastButtonInput ∧
      colState (debounce s d) s.column =
        (s.lastButtonInput s.column, 0, s.buttonInputChanged s.column) := by
  rw [debounce_same s d h]
  simp [colState]

theorem scan_new_mask (s : State) (d : Nat) (h : d ≠ s.lastButtonInput s.column)
    (hm : d ^^^ s.lastButtonInput s.column ≠ s.buttonInputChanged s.column) :
    (debounce s d).buttonEventBuffer = s.buttonEventBuffer ∧ (debounce s d).halted = s.halted ∧
      (debounce s d).lastButtonInput = s.lastButtonInput ∧
      colState (debounce s d) s.column =
        (s.lastButtonInput s.column, 0, d ^^^ s.lastButtonInput s.column) := by
  rw [debounce_new_mask s d h hm]
  simp [colState]

theorem scan_count (s : State) (d : Nat) (h : d ≠ s.lastButtonInput s.column)
    (hm : d ^^^ s.lastButtonInput s.column = s.buttonInputChanged s.column)
    (hc : s.buttonInputCounter s.column = 0) :
    (debounce s d).buttonEventBuffer = s.buttonEventBuffer ∧ (debounce s d).halted = s.halted ∧
      (debounce s d).lastButtonInput = s.lastButtonInput ∧
      colState (debounce s d) s.column =
        (s.lastButtonInput s.column, 1, s.buttonInputChanged s.column) := by
  rw [debounce_count s d h hm hc]
  simp [colState]

theorem scan_commit (s : State) (d : Nat) (h : d ≠ s.lastButtonInput s.column)
    (hm : d ^^^ s.lastButtonInput s.column = s.buttonInputChanged s.column)
    (hc : s.buttonInputCounter s.column = 1) (hwf : s.buttonEventBuffer.WF)
    (hroom : s.buttonEventBuffer.count +
      (expectedEvents s.column (s.lastButtonInput s.column) d).length ≤
        s.buttonEventBuffer.endAddr) :
    (debounce s d).buttonEventBuffer.contents =
        s.buttonEventBuffer.contents ++ expectedEvents s.column (s.lastButtonInput s.column) d ∧
      (debounce s d).halted = s.halted ∧
      colState (debounce s d) s.column = (d, 2, s.buttonInputChanged s.column) := by
  rw [← commitEvents_eq_expected, hm] at hroom
  obtain ⟨c1, _, _, _, c5⟩ := commitLoop_room s.column (s.lastButtonInput s.column)
    (s.buttonInputChanged s.column) (List.range ROWS) s.buttonEventBuffer hwf hroom
  rw [debounce_commit s d h hm hc, if_pos c1, ← commitEvents_eq_expected, hm]
  simp [colState, c5]

/-! ## Claims on the debounce state machine -/

/-- C3 (as amended): let a column's debounce variables be scanned three
times in a row with the same reading `d`, different from `lastButtonInput`,
starting in a state where `buttonInputCounter < 2` or `buttonInputChanged`
differs from `d XOR lastButtonInput`; between the scans anything may happen
that leaves these three variables alone, and at each scan the queue has room
for the events. Then the events enqueued by the three scans together are
exactly one event per row `0..5` whose bit differs between `d` and
`lastButtonInput`, pressed when the bit went from 0 to 1, no scan halts, and
afterwards `lastButtonInput` is `d`. -/
theorem debounce_confirms_after_three (s1 s2 s3 : State) (c d : Nat)
    (hc1 : s1.column = c) (hc2 : s2.column = c) (hc3 : s3.column = c)
    (hd : d ≠ s1.lastButtonInput c)
    (hpre : s1.buttonInputCounter c < 2 ∨ s1.buttonInputChanged c ≠ d ^^^ s1.lastButtonInput c)
    (h12 : colState s2 c = colState (debounce s1 d) c)
    (h23 : colState s3 c = colState (debounce s2 d) c)
    (hwf1 : s1.buttonEventBuffer.WF) (hwf2 : s2.buttonEventBuffer.WF)
    (hwf3 : s3.buttonEventBuffer.WF)
    (hroom1 : s1.buttonEventBuffer.count + (expectedEvents c (s1.lastButtonInput c) d).length ≤
      s1.buttonEventBuffer.endAddr)
    (hroom2 : s2.buttonEventBuffer.count + (expectedEvents c (s1.lastButtonInput c) d).length ≤
      s2.buttonEventBuffer.endAddr)
    (hroom3 : s3.buttonEventBuffer.count + (expectedEvents c (s1.lastButtonInput c) d).length ≤
      s3.buttonEventBuffer.endAddr) :
    ∃ e1 e2 e3 : List ButtonEvent,
      (debounce s1 d).buttonEventBuffer.contents = s1.buttonEventBuffer.contents ++ e1 ∧
      (debounce s2 d).buttonEventBuffer.contents = s2.buttonEventBuffer.contents ++ e2 ∧
      (debounce s3 d).buttonEventBuffer.contents = s3.buttonEventBuffer.contents ++ e3 ∧
      e1 ++ e2 ++ e3 = expectedEvents c (s1.lastButtonInput c) d ∧
      (debounce s1 d).halted = s1.halted ∧ (debounce s2 d).halted = s2.halted ∧
      (debounce s3 d).halted = s3.halted ∧
      (debounce s3 d).lastButtonInput c = d := by
  subst hc1
  simp only [colState, Prod.mk.injEq] at h12 h23
  by_cases hm : d ^^^ s1.lastButtonInput s1.column = s1.buttonInputChanged s1.column
  · have hlt : s1.buttonInputCounter s1.column < 2 := by
      rcases hpre with h | h
      · exact h
      · exact absurd hm.symm h
    rcases (by omega : s1.buttonInputCounter s1.column = 0 ∨
        s1.buttonInputCounter s1.column = 1) with h0 | h1
    · -- scan 1 counts, scan 2 commits, scan 3 sees the committed reading
      obtain ⟨a1, a2, a3, a4⟩ := scan_count s1 d hd hm h0
      simp only [colState, Prod.mk.injEq] at a4
      obtain ⟨l2, n2, m2⟩ := h12
      rw [a4.1] at l2; rw [a4.2.1] at n2; rw [a4.2.2] at m2
      have hd2 : d ≠ s2.lastButtonInput s2.column := by rw [hc2, l2]; exact hd
      have hm2 : d ^^^ s2.lastButtonInput s2.column = s2.buttonInputChanged s2.column := by
        rw [hc2, l2, m2]; exact hm
      have hroom2' := hroom2
      rw [← l2, ← hc2] at hroom2'
      obtain ⟨b1, b2, b3⟩ := scan_commit s2 d hd2 hm2 (by rw [hc2]; exact n2) hwf2 hroom2'
      rw [hc2] at b1 b3
      simp only [colState, Prod.mk.injEq] at b3
      obtain ⟨l3, n3, m3⟩ := h23
      rw [b3.1] at l3
      have hd3 : d = s3.lastButtonInput s3.column := by rw [hc3, l3]
      obtain ⟨c1, c2, c3, c4⟩ := scan_same s3 d hd3
      refine ⟨[], expectedEvents s1.column (s1.lastButtonInput s1.column) d, [], ?_, ?_, ?_, ?_,
        a2, b2, c2, ?_⟩
      · rw [a1]; simp
      · rw [b1, l2]
      · rw [c1]; simp
      · simp
      · rw [c3, l3]
    · -- scan 1 commits, scans 2 and 3 see the committed reading
      obtain ⟨a1, a2, a3⟩ := scan_commit s1 d hd hm h1 hwf1 hroom1
      simp only [colState, Prod.mk.injEq] at a3
      obtain ⟨l2, n2, m2⟩ := h12
      rw [a3.1] at l2
      have hd2 : d = s2.lastButtonInput s2.column := by rw [hc2, l2]
      obtain ⟨b1, b2, b3, b4⟩ := scan_same s2 d hd2
      rw [hc2] at b4
      simp only [colState, Prod.mk.injEq] at b4
      obtain ⟨l3, n3, m3⟩ := h23
      rw [b4.1, l2] at l3
      have hd3 : d = s3.lastButtonInput s3.column := by rw [hc3, l3]
      obtain ⟨c1, c2, c3, c4⟩ := scan_same s3 d hd3
      refine ⟨expectedEvents s1.column (s1.lastButtonInput s1.column) d, [], [], a1, ?_, ?_, ?_,
        a2, b2, c2, ?_⟩
      · rw [b1]; simp
      · rw [c1]; simp
      · simp
      · rw [c3, l3]
  · -- scan 1 registers the candidate, scan 2 counts, scan 3 commits
    obtain ⟨a1, a2, a3, a4⟩ := scan_new_mask s1 d hd hm
    simp only [colState, Prod.mk.injEq] at a4
    obtain ⟨l2, n2, m2⟩ := h12
    rw [a4.1] at l2; rw [a4.2.1] at n2; rw [a4.2.2] at m2
    have hd2 : d ≠ s2.lastButtonInput s2.column := by rw [hc2, l2]; exact hd
    have hm2 : d ^^^ s2.lastButtonInput s2.column = s2.buttonInputChanged s2.column := by
      rw [hc2, l2, m2]
    obtain ⟨b1, b2, b3, b4⟩ := scan_count s2 d hd2 hm2 (by rw [hc2]; exact n2)
    rw [hc2] at b4
    simp only [colState, Prod.mk.injEq] at b4
    obtain ⟨l3, n3, m3⟩ := h23
    rw [b4.1, l2] at l3; rw [b4.2.1] at n3; rw [b4.2.2, m2] at m3
    have hd3 : d ≠ s3.lastButtonInput s3.column := by rw [hc3, l3]; exact hd
    have hm3 : d ^^^ s3.lastButtonInput s3.column = s3.buttonInputChanged s3.column := by
      rw [hc3, l3, m3]
    have hroom3' := hroom3
    rw [← l3, ← hc3] at hroom3'
    obtain ⟨c1, c2, c3⟩ := scan_commit s3 d hd3 hm3 (by rw [hc3]; exact n3) hwf3 hroom3'
    rw [hc3] at c1 c3
    simp only [colState, Prod.mk.injEq] at c3
    refine ⟨[], [], expectedEvents s1.column (s1.lastButtonInput s1.column) d, ?_, ?_, ?_, ?_,
      a2, b2, c2, c3.1⟩
    · rw [a1]; simp
    · rw [b1]; simp
    · rw [c1, l3]
    · simp

theorem ISR_scan (s : State) (d c : Nat) (h : scanColumn s = some c) :
    (ISR s d).1 = debounce (advance s) d ∧ (advance s).column = c ∧ s.halted = false := by
  unfold scanColumn at h
  unfold ISR
  by_cases hh : s.halted = true
  · simp [hh] at h
  · by_cases hb : (advance s).bamCount = 0
    · simp [hh, hb] at h
      simp [hh, hb, h]
    · simp [hh, hb] at h

theorem ISR_noscan (s : State) (d : Nat) (h : scanColumn s = none) :
    (ISR s d).1 = s ∨ (ISR s d).1 = advance s := by
  unfold scanColumn at h
  unfold ISR
  by_cases hh : s.halted = true
  · simp [hh]
  · by_cases hb : (advance s).bamCount = 0
    · simp [hh, hb] at h
    · simp [hh, hb]

theorem debounce_buffer_changes (s : State) (d : Nat)
    (h : (debounce s d).buttonEventBuffer ≠ s.buttonEventBuffer) :
    d ≠ s.lastButtonInput s.column ∧
      d ^^^ s.lastButtonInput s.column = s.buttonInputChanged s.column ∧
      s.buttonInputCounter s.column = 1 := by
  by_cases h1 : d = s.lastButtonInput s.column
  · exact absurd (scan_same s d h1).1 h
  by_cases h2 : d ^^^ s.lastButtonInput s.column = s.buttonInputChanged s.column
  · rcases (by omega : s.buttonInputCounter s.column = 0 ∨ s.buttonInputCounter s.column = 1 ∨
        2 ≤ s.buttonInputCounter s.column) with h3 | h3 | h3
    · exact absurd (scan_count s d h1 h2 h3).1 h
    · exact ⟨h1, h2, h3⟩
    · rw [debounce_done s d h1 h2 h3] at h
      exact absurd rfl h
  · exact absurd (scan_new_mask s d h1 h2).1 h

theorem debounce_CounterInv (s : State) (g : Nat → Option Nat) (d : Nat) (h : CounterInv s g) :
    CounterInv (debounce s d) (Function.update g s.column (some d)) := by
  intro c hc
  by_cases hcc : c = s.column
  · subst hcc
    rw [Function.update_same]
    by_cases h1 : d = s.lastButtonInput s.column
    · have := (scan_same s d h1).2.2.2
      simp only [colState, Prod.mk.injEq] at this
      rw [this.2.1] at hc
      cases hc
    by_cases h2 : d ^^^ s.lastButtonInput s.column = s.buttonInputChanged s.column
    · rcases (by omega : s.buttonInputCounter s.column = 0 ∨ s.buttonInputCounter s.column = 1 ∨
          2 ≤ s.buttonInputCounter s.column) with h3 | h3 | h3
      · have := (scan_count s d h1 h2 h3).2.2.2
        simp only [colState, Prod.mk.injEq] at this
        exact ⟨d, rfl, by rw [this.1, this.2.2]; exact h2⟩
      · rw [debounce_commit s d h1 h2 h3] at hc
        split at hc <;> simp at hc
      · rw [debounce_done s d h1 h2 h3] at hc
        omega
    · have := (scan_new_mask s d h1 h2).2.2.2
      simp only [colState, Prod.mk.injEq] at this
      rw [this.2.1] at hc
      cases hc
  · have hne : c ≠ s.column := hcc
    have key : (debounce s d).buttonInputCounter c = s.buttonInputCounter c ∧
        (debounce s d).lastButtonInput c = s.lastButtonInput c ∧
        (debounce s d).buttonInputChanged c = s.buttonInputChanged c := by
      by_cases h1 : d = s.lastButtonInput s.column
      · rw [debounce_same s d h1]; simp [Function.update_noteq hne]
      by_cases h2 : d ^^^ s.lastButtonInput s.column = s.buttonInputChanged s.column
      · rcases (by omega : s.buttonInputCounter s.column = 0 ∨
            s.buttonInputCounter s.column = 1 ∨
            2 ≤ s.buttonInputCounter s.column) with h3 | h3 | h3
        · rw [debounce_count s d h1 h2 h3]; simp [Function.update_noteq hne]
        · rw [debounce_commit s d h1 h2 h3]
          split <;> simp [Function.update_noteq hne]
        · rw [debounce_done s d h1 h2 h3]; exact ⟨rfl, rfl, rfl⟩
      · rw [debounce_new_mask s d h1 h2]; simp [Function.update_noteq hne]
    rw [key.1] at hc
    rw [key.2.1, key.2.2, Function.update_noteq hne]
    exact h c hc

theorem runSteps_CounterInv (colors : Nat → Nat → Nat) (steps : List Step)
    (s : State) (g : Nat → Option Nat) (h : CounterInv s g) :
    CounterInv (runSteps colors (s, g) steps).1 (runSteps colors (s, g) steps).2 := by
  induction steps generalizing s g with
  | nil => exact h
  | cons st steps ih =>
    cases st with
    | tick dataIn =>
      simp only [runSteps]
      apply ih
      cases hsc : scanColumn s with
      | none =>
        rcases ISR_noscan s dataIn hsc with e | e
        · simp only [State.step]; rw [e]; exact h
        · simp only [State.step]; rw [e]; exact h
      | some c =>
        obtain ⟨e1, e2, _⟩ := ISR_scan s dataIn c hsc
        simp only [State.step]
        rw [e1, ← e2]
        exact debounce_CounterInv (advance s) g dataIn h
    | poll =>
      simp only [runSteps]
      apply ih
      simp only [State.step]
      split
      · exact h
      · exact h
    | receive bytes wire =>
      simp only [runSteps]
      apply ih
      simp only [State.step]
      split
      · exact h
      · exact h
    | paint rgb =>
      simp only [runSteps]
      apply ih
      simp only [State.step]
      split
      · exact h
      · exact h

/-- C5: in every state reached from the state after `setup()` by ticks, polls,
host messages and frame buffer stores of the main program, a tick changes the event queue only if it is a stage-0 scan
whose reading `d` differs from `lastButtonInput` of the scanned column and the
previous scan of that column read the same `d`; and a stage-0 scan whose
reading equals `lastButtonInput` leaves the queue and `lastButtonInput`
unchanged and sets `buttonInputCounter` of the column to 0. -/
theorem debounce_suppresses_noise (colors : Nat → Nat → Nat) (sizeofEvent : Nat)
    (mem0 : Nat → ButtonEvent) (steps : List Step) (s : State) (g : Nat → Option Nat) (d : Nat)
    (hrun : runSteps colors (State.init sizeofEvent mem0, fun _ => none) steps = (s, g)) :
    ((ISR s d).1.buttonEventBuffer ≠ s.buttonEventBuffer →
      ∃ c, scanColumn s = some c ∧ d ≠ s.lastButtonInput c ∧ g c = some d) ∧
    (∀ c, scanColumn s = some c → d = s.lastButtonInput c →
      (ISR s d).1.buttonEventBuffer = s.buttonEventBuffer ∧
      (ISR s d).1.lastButtonInput = s.lastButtonInput ∧
      (ISR s d).1.buttonInputCounter c = 0) := by
  have hinv : CounterInv s g := by
    have := runSteps_CounterInv colors steps (State.init sizeofEvent mem0) (fun _ => none)
      (by intro c hc; simp [State.init] at hc)
    rw [hrun] at this
    exact this
  constructor
  · intro hne
    cases hsc : scanColumn s with
    | none =>
      rcases ISR_noscan s d hsc with e | e
      · rw [e] at hne; exact absurd rfl hne
      · rw [e] at hne; exact absurd rfl hne
    | some c =>
      obtain ⟨e1, e2, _⟩ := ISR_scan s d c hsc
      rw [e1] at hne
      obtain ⟨k1, k2, k3⟩ := debounce_buffer_changes (advance s) d hne
      rw [e2] at k1 k2 k3
      obtain ⟨d', g1, g2⟩ := hinv c k3
      have hdd : d' = d := Nat.xor_left_inj.1 (g2.trans k2.symm)
      exact ⟨c, rfl, k1, by rw [g1, hdd]⟩
  · intro c hsc hd
    obtain ⟨e1, e2, _⟩ := ISR_scan s d c hsc
    have hd' : d = (advance s).lastButtonInput (advance s).column := by rw [e2]; exact hd
    obtain ⟨a1, _, a3, a4⟩ := scan_same (advance s) d hd'
    simp only [colState, Prod.mk.injEq] at a4
    rw [e1]
    refine ⟨a1, a3, ?_⟩
    rw [← e2]; exact a4.2.1

theorem debounce_suppresses_noise_witness :
    runSteps (fun _ _ => 0) (State.init 3 (fun _ => ⟨0, 0, 0⟩), fun _ => none) [] =
        (initState, fun _ => none) ∧
      (ISR initState 0).1.buttonInputCounter 0 = 0 :=
  ⟨rfl, ((debounce_suppresses_noise (fun _ _ => 0) 3 (fun _ => ⟨0, 0, 0⟩) [] initState
    (fun _ => none) 0 rfl).2 0 (by decide) (by decide)).2.2⟩

theorem ISR_halted (s : State) (d : Nat) (h : s.halted = true) : ISR s d = (s, []) := by
  unfold ISR
  rw [if_pos h]

theorem step_halted (colors : Nat → Nat → Nat) (s : State) (st : Step) (h : s.halted = true) :
    State.step colors s st = s := by
  cases st with
  | tick dataIn => simp only [State.step]; rw [ISR_halted s dataIn h]
  | poll => simp only [State.step]; rw [if_pos h]
  | receive bytes wire => simp only [State.step]; rw [if_pos h]
  | paint rgb => simp only [State.step]; rw [if_pos h]

theorem runSteps_halted (colors : Nat → Nat → Nat) (steps : List Step) (s : State)
    (g : Nat → Option Nat) (h : s.halted = true) :
    (runSteps colors (s, g) steps).1 = s := by
  induction steps generalizing g with
  | nil => rfl
  | cons st steps ih =>
    cases st with
    | tick dataIn =>
      simp only [runSteps]
      rw [step_halted colors s _ h]
      exact ih _
    | poll =>
      simp only [runSteps]
      rw [step_halted colors s _ h]
      exact ih _
    | receive bytes wire =>
      simp only [runSteps]
      rw [step_halted colors s _ h]
      exact ih _
    | paint rgb =>
      simp only [runSteps]
      rw [step_halted colors s _ h]
      exact ih _

theorem runISR_halted (ins : List Nat) (s : State) (h : s.halted = true) : runISR s ins = s := by
  unfold runISR
  induction ins with
  | nil => rfl
  | cons d ins ih =>
    rw [List.foldl_cons]
    have : (ISR s d).1 = s := by rw [ISR_halted s d h]
    rw [this]
    exact ih

/-- C10: when a tick performs a debounce commit (a stage-0 scan of a column
whose reading differs from `lastButtonInput`, agrees with `buttonInputChanged`
and finds the counter at 1) and a `write` of that commit returns `false`, the
system is halted after the tick, `lastButtonInput` has not been updated, and
from then on no tick, poll, host message or store of the main program changes
the state or shifts out a byte: the cursor, the debounce variables and the event queue stay as they
are. -/
theorem overflow_fatal (colors : Nat → Nat → Nat) (s : State) (d c : Nat)
    (hscan : scanColumn s = some c) (hd : d ≠ s.lastButtonInput c)
    (hch : d ^^^ s.lastButtonInput c = s.buttonInputChanged c)
    (hcnt : s.buttonInputCounter c = 1)
    (hfail : (commitLoop c (s.lastButtonInput c) (s.buttonInputChanged c) (List.range ROWS)
      s.buttonEventBuffer).2 = false) :
    (ISR s d).1.halted = true ∧
      (ISR s d).1.lastButtonInput = s.lastButtonInput ∧
      (∀ d2, ISR (ISR s d).1 d2 = ((ISR s d).1, [])) ∧
      (∀ ins, runISR (ISR s d).1 ins = (ISR s d).1) ∧
      (∀ steps g, (runSteps colors ((ISR s d).1, g) steps).1 = (ISR s d).1) := by
  obtain ⟨e1, e2, _⟩ := ISR_scan s d c hscan
  have hd' : d ≠ (advance s).lastButtonInput (advance s).column := by rw [e2]; exact hd
  have hch' : d ^^^ (advance s).lastButtonInput (advance s).column =
      (advance s).buttonInputChanged (advance s).column := by rw [e2]; exact hch
  have hcnt' : (advance s).buttonInputCounter (advance s).column = 1 := by rw [e2]; exact hcnt
  have hfail' : ¬ (commitLoop (advance s).column ((advance s).lastButtonInput (advance s).column)
      ((advance s).buttonInputChanged (advance s).column) (List.range ROWS)
      (advance s).buttonEventBuffer).2 = true := by
    rw [e2]
    show ¬ (commitLoop c (s.lastButtonInput c) (s.buttonInputChanged c) (List.range ROWS)
      s.buttonEventBuffer).2 = true
    rw [hfail]; simp
  have hres := debounce_commit (advance s) d hd' hch' hcnt'
  rw [if_neg hfail'] at hres
  have hh : (ISR s d).1.halted = true := by rw [e1, hres]
  refine ⟨hh, ?_, ?_, ?_, ?_⟩
  · rw [e1, hres]; rfl
  · intro d2; exact ISR_halted _ d2 hh
  · intro ins; exact runISR_halted ins _ hh
  · intro steps g; exact runSteps_halted colors steps _ g hh

theorem overflow_fatal_witness :
    (scanColumn fullState = some 0 ∧ 1 ≠ fullState.lastButtonInput 0 ∧
      1 ^^^ fullState.lastButtonInput 0 = fullState.buttonInputChanged 0 ∧
      fullState.buttonInputCounter 0 = 1 ∧
      (commitLoop 0 (fullState.lastButtonInput 0) (fullState.buttonInputChanged 0)
        (List.range ROWS) fullState.buttonEventBuffer).2 = false) ∧
    (ISR fullState 1).1.halted = true ∧
    (ISR fullState 1).1.lastButtonInput = fullState.lastButtonInput :=
  ⟨by decide,
    (overflow_fatal (fun _ _ => 0) fullState 1 0 (by decide) (by decide) (by decide) (by decide)
      (by decide)).1,
    (overflow_fatal (fun _ _ => 0) fullState 1 0 (by decide) (by decide) (by decide) (by decide)
      (by decide)).2.1⟩

/-- C3 (counterexample): from the state after `setup()`, 41 ticks that all
read back 1 contain two consecutive stage-0 scans of index 0 with the reading
1, different from `lastButtonInput = 0`; the queue is still empty afterwards
although one press event is due. And in the state reached by three scans
reading 1, three further scans reading 0 enqueue nothing and leave
`lastButtonInput` at 1 although one release event is due. -/
theorem two_scans_enqueue_nothing :
    ((runISR initState (List.replicate 41 1)).buttonEventBuffer.contents = [] ∧
      (runISR initState (List.replicate 41 1)).column = 0 ∧
      (runISR initState (List.replicate 41 1)).bamCount = 0 ∧
      colState (runISR initState (List.replicate 41 1)) 0 = (0, 1, 1) ∧
      expectedEvents 0 (initState.lastButtonInput 0) 1 =
        [{ column := 9, row := 0, isPressed := 1 }]) ∧
    (colState (debounce (debounce (debounce initState 1) 1) 1) 9 = (1, 2, 1) ∧
      (debounce (debounce (debounce (debounce (debounce (debounce initState 1) 1) 1) 0) 0)
        0).buttonEventBuffer.contents =
        (debounce (debounce (debounce initState 1) 1) 1).buttonEventBuffer.contents ∧
      colState (debounce (debounce (debounce (debounce (debounce (debounce initState 1) 1) 1)
        0) 0) 0) 9 = (1, 2, 1) ∧
      expectedEvents 9 1 0 = [{ column := 8, row := 0, isPressed := 0 }]) := by
  set_option maxRecDepth 1000000 in decide

theorem debounce_confirms_after_three_witness :
    (1 ≠ initState.lastButtonInput 9 ∧ initState.buttonInputCounter 9 < 2) ∧
      (debounce (debounce (debounce initState 1) 1) 1).lastButtonInput 9 = 1 := by
  refine ⟨by decide, ?_⟩
  obtain ⟨_, _, _, _, _, _, _, _, _, _, h⟩ :=
    debounce_confirms_after_three initState (debounce initState 1)
      (debounce (debounce initState 1) 1) 9 1 rfl rfl rfl (by decide) (Or.inl (by decide))
      rfl rfl ⟨by decide, by decide⟩ ⟨by decide, by decide⟩ ⟨by decide, by decide⟩
      (by decide) (by decide) (by decide)
  exact h

/-! ## Claims on the tick: timer, cursor, output, sampling -/

/-- C11 (evaluation at the failing input): from the state after `setup()` the
first five ticks leave `(bamCount, OCR1A)` at (0, 128), (1, 16), (2, 32),
(3, 64), (0, 128): the tick that emits stage 0 sets the longest duration
`BAM_INIT_COUNT * 8`, and the register is reset to `BAM_INIT_COUNT` on the tick
that emits stage 1, one tick after the column cursor advanced. -/
theorem tick_durations_rotated :
    ((runISR initState [0]).bamCount, (runISR initState [0]).OCR1A,
        (runISR initState [0]).column) = (0, 128, 0) ∧
      ((runISR initState [0, 0]).bamCount, (runISR initState [0, 0]).OCR1A,
        (runISR initState [0, 0]).column) = (1, 16, 0) ∧
      ((runISR initState [0, 0, 0]).bamCount, (runISR initState [0, 0, 0]).OCR1A,
        (runISR initState [0, 0, 0]).column) = (2, 32, 0) ∧
      ((runISR initState [0, 0, 0, 0]).bamCount, (runISR initState [0, 0, 0, 0]).OCR1A,
        (runISR initState [0, 0, 0, 0]).column) = (3, 64, 0) ∧
      ((runISR initState [0, 0, 0, 0, 0]).bamCount, (runISR initState [0, 0, 0, 0, 0]).OCR1A,
        (runISR initState [0, 0, 0, 0, 0]).column) = (0, 128, 1) ∧
      BAM_INIT_COUNT = 16 := by
  decide

/-- C19 (evaluation at the failing input): on the event queue
`RingBuffer<ButtonEvent>(10)` with 3-byte events, after ten writes the write
cursor stands at element index 10, and after ten reads more the read cursor
stands at element index 10 as well, both outside the ten allocated elements
`0..9`. -/
theorem cursors_leave_allocation :
    eventQueue.size = 10 ∧
      (runOps eventQueue (tenEvents.map Op.write)).1.head = 10 ∧
      (runOps eventQueue (tenEvents.map Op.write ++ List.replicate 10 Op.read)).1.tail = 10 ∧
      (runOps eventQueue (tenEvents.map Op.write ++ List.replicate 10 Op.read)).1.head = 10 := by
  set_option maxRecDepth 100000 in decide

theorem debounce_cursor (s : State) (d : Nat) :
    (debounce s d).column = s.column ∧ (debounce s d).bamCount = s.bamCount ∧
      (debounce s d).rgb = s.rgb ∧ (debounce s d).OCR1A = s.OCR1A := by
  by_cases h1 : d = s.lastButtonInput s.column
  · rw [debounce_same s d h1]; exact ⟨rfl, rfl, rfl, rfl⟩
  by_cases h2 : d ^^^ s.lastButtonInput s.column = s.buttonInputChanged s.column
  · rcases (by omega : s.buttonInputCounter s.column = 0 ∨ s.buttonInputCounter s.column = 1 ∨
        2 ≤ s.buttonInputCounter s.column) with h3 | h3 | h3
    · rw [debounce_count s d h1 h2 h3]; exact ⟨rfl, rfl, rfl, rfl⟩
    · rw [debounce_commit s d h1 h2 h3]
      split <;> exact ⟨rfl, rfl, rfl, rfl⟩
    · rw [debounce_done s d h1 h2 h3]; exact ⟨rfl, rfl, rfl, rfl⟩
  · rw [debounce_new_mask s d h1 h2]; exact ⟨rfl, rfl, rfl, rfl⟩

theorem debounce_other_column (s : State) (d c : Nat) (hne : c ≠ s.column) :
    colState (debounce s d) c = colState s c := by
  unfold colState
  by_cases h1 : d = s.lastButtonInput s.column
  · rw [debounce_same s d h1]; simp [Function.update_noteq hne]
  by_cases h2 : d ^^^ s.lastButtonInput s.column = s.buttonInputChanged s.column
  · rcases (by omega : s.buttonInputCounter s.column = 0 ∨ s.buttonInputCounter s.column = 1 ∨
        2 ≤ s.buttonInputCounter s.column) with h3 | h3 | h3
    · rw [debounce_count s d h1 h2 h3]; simp [Function.update_noteq hne]
    · rw [debounce_commit s d h1 h2 h3]
      split <;> simp [Function.update_noteq hne]
    · rw [debounce_done s d h1 h2 h3]
  · rw [debounce_new_mask s d h1 h2]; simp [Function.update_noteq hne]

theorem ISR_cases (s : State) (d : Nat) :
    (s.halted = true ∧ ISR s d = (s, [])) ∨
    (s.halted = false ∧ (advance s).bamCount = 0 ∧
      ISR s d = (debounce (advance s) d,
        spiOut (advance s).rgb (advance s).column (advance s).bamCount)) ∨
    (s.halted = false ∧ (advance s).bamCount ≠ 0 ∧
      ISR s d = (advance s, spiOut (advance s).rgb (advance s).column (advance s).bamCount)) := by
  unfold ISR
  by_cases hh : s.halted = true
  · left; simp [hh]
  · have hf : s.halted = false := by cases h : s.halted <;> simp_all
    by_cases hb : (advance s).bamCount = 0
    · right; left; simp [hf, hb]
    · right; right; simp [hf, hb]

/-- C17: a tick whose new stage is not 0 leaves `lastButtonInput`,
`buttonInputChanged` and `buttonInputCounter` of every column, the event queue
and the halt flag unchanged, whatever byte is read back; and any tick leaves
the three debounce variables unchanged for every index other than the column
cursor after the advance. -/
theorem sampled_only_at_stage_zero (s : State) (d : Nat) :
    ((advance s).bamCount ≠ 0 →
      (ISR s d).1.lastButtonInput = s.lastButtonInput ∧
      (ISR s d).1.buttonInputChanged = s.buttonInputChanged ∧
      (ISR s d).1.buttonInputCounter = s.buttonInputCounter ∧
      (ISR s d).1.buttonEventBuffer = s.buttonEventBuffer ∧
      (ISR s d).1.halted = s.halted) ∧
    (∀ c, c ≠ (advance s).column → colState (ISR s d).1 c = colState s c) := by
  rcases ISR_cases s d with ⟨_, e⟩ | ⟨_, hb, e⟩ | ⟨_, _, e⟩
  · rw [e]; exact ⟨fun _ => ⟨rfl, rfl, rfl, rfl, rfl⟩, fun _ _ => rfl⟩
  · rw [e]
    refine ⟨fun h => absurd hb h, fun c hc => ?_⟩
    rw [debounce_other_column (advance s) d c hc]; rfl
  · rw [e]; exact ⟨fun _ => ⟨rfl, rfl, rfl, rfl, rfl⟩, fun _ _ => rfl⟩

theorem sampled_only_at_stage_zero_witness :
    (advance (ISR initState 1).1).bamCount ≠ 0 ∧
      (ISR (ISR initState 1).1 255).1.lastButtonInput = (ISR initState 1).1.lastButtonInput :=
  ⟨by decide, ((sampled_only_at_stage_zero (ISR initState 1).1 255).1 (by decide)).1⟩

theorem scan_stuck (s : State) (d c : Nat) (hscan : scanColumn s = some c)
    (hcnt : s.buttonInputCounter c = 2) (hd : d ≠ s.lastButtonInput c)
    (hm : d ^^^ s.lastButtonInput c = s.buttonInputChanged c) :
    colState (ISR s d).1 c = colState s c ∧
      (ISR s d).1.buttonEventBuffer = s.buttonEventBuffer := by
  obtain ⟨e1, e2, _⟩ := ISR_scan s d c hscan
  have hdone := debounce_done (advance s) d (by rw [e2]; exact hd) (by rw [e2]; exact hm)
    (by rw [e2]; show 2 ≤ s.buttonInputCounter c; omega)
  rw [e1, hdone]
  exact ⟨rfl, rfl⟩

/-- C18 (evaluation at the failing input): after three scans reading 1 from
the state after `setup()` the press of row 0 is committed and the debounce
variables of the column are `(lastButtonInput, counter, changed) = (1, 2, 1)`.
From then on any number of consecutive scans reading 0 changes nothing:
`lastButtonInput` stays 1, different from the held reading 0, and no event is
enqueued. -/
theorem held_release_never_committed :
    colState stuckState 9 = (1, 2, 1) ∧ stuckState.column = 9 ∧
    stuckState.buttonEventBuffer.contents = [{ column := 8, row := 0, isPressed := 1 }] ∧
    (∀ n : Nat, colState ((fun s => debounce s 0)^[n] stuckState) 9 = (1, 2, 1) ∧
      ((fun s => debounce s 0)^[n] stuckState).buttonEventBuffer =
        stuckState.buttonEventBuffer) := by
  have hfix : debounce stuckState 0 = stuckState :=
    debounce_done stuckState 0 (by decide) (by decide) (by decide)
  refine ⟨by decide, by decide, by decide, ?_⟩
  intro n
  have : (fun s => debounce s 0)^[n] stuckState = stuckState :=
    Function.iterate_fixed hfix n
  rw [this]
  exact ⟨by decide, rfl⟩

theorem compl_byte (x : Nat) : (65535 ^^^ x) % 256 = compl8 x := by
  unfold compl8
  have hy : x % 256 < 2 ^ 8 := by
    have : x % 256 < 256 := Nat.mod_lt _ (by decide)
    simpa using this
  have e : 255 - x % 256 = 2 ^ 8 - (x % 256 + 1) := by
    have : (2 : Nat) ^ 8 = 256 := by norm_num
    omega
  apply Nat.eq_of_testBit_eq
  intro i
  rw [e, Nat.testBit_two_pow_sub_succ hy, show (256 : Nat) = 2 ^ 8 by norm_num,
    Nat.testBit_mod_two_pow, Nat.testBit_mod_two_pow, Nat.testBit_xor,
    show (65535 : Nat) = 2 ^ 16 - 1 by norm_num, Nat.testBit_two_pow_sub_one]
  by_cases h : i < 8
  · have : i < 16 := by omega
    simp [h, this]
  · simp [h]

theorem ISR_cursor (s : State) (d : Nat) (hrun : s.halted = false) :
    (ISR s d).1.column = (advance s).column ∧ (ISR s d).1.bamCount = (advance s).bamCount ∧
      (ISR s d).1.rgb = s.rgb ∧
      (ISR s d).2 = spiOut s.rgb (advance s).column (advance s).bamCount := by
  rcases ISR_cases s d with ⟨h, _⟩ | ⟨_, _, e⟩ | ⟨_, _, e⟩
  · rw [hrun] at h; cases h
  · rw [e]
    obtain ⟨c1, c2, c3, _⟩ := debounce_cursor (advance s) d
    exact ⟨c1, c2, c3, rfl⟩
  · rw [e]; exact ⟨rfl, rfl, rfl, rfl⟩

/-- C16: a tick of the running system with the column cursor in `0..9` shifts
out exactly five bytes, in this order: the 8-bit complements of the RED, BLUE
and GREEN masks of the frame buffer at the cursor after the advance, then the
high byte and the low byte of the 16-bit mask `2 ^ column`, in which exactly
bit `column` is set. -/
theorem output_frame (s : State) (d : Nat) (hrun : s.halted = false) (hcol : s.column < 10) :
    (ISR s d).1.column = (advance s).column ∧ (ISR s d).1.bamCount = (advance s).bamCount ∧
      (ISR s d).2 =
        [compl8 (s.rgb (ISR s d).1.bamCount (ISR s d).1.column RGB_RED),
         compl8 (s.rgb (ISR s d).1.bamCount (ISR s d).1.column RGB_BLUE),
         compl8 (s.rgb (ISR s d).1.bamCount (ISR s d).1.column RGB_GREEN),
         2 ^ (ISR s d).1.column / 256,
         2 ^ (ISR s d).1.column % 256] ∧
      2 ^ (ISR s d).1.column < 65536 ∧
      ∀ j, (2 ^ (ISR s d).1.column).testBit j = decide ((ISR s d).1.column = j) := by
  obtain ⟨c1, c2, _, c4⟩ := ISR_cursor s d hrun
  have hlt : (advance s).column < 10 := by
    show (if s.bamCount ≥ BAM_STAGES - 1 then (s.column + 1) % COLS else s.column) < 10
    split
    · exact Nat.mod_lt _ (by decide)
    · exact hcol
  rw [c1, c2, c4]
  refine ⟨rfl, rfl, ?_, ?_, fun j => Nat.testBit_two_pow⟩
  · unfold spiOut
    simp only [compl_byte, Nat.one_shiftLeft, Nat.shiftRight_eq_div_pow]
    generalize (advance s).column = c at hlt
    interval_cases c <;> simp
  · generalize (advance s).column = c at hlt
    interval_cases c <;> decide

theorem output_frame_witness :
    (initState.halted = false ∧ initState.column < 10) ∧
      (ISR initState 0).2 = [255, 255, 255, 0, 1] := by
  refine ⟨by decide, ?_⟩
  rw [(output_frame initState 0 (by decide) (by decide)).2.2.1]
  decide

theorem advance_cursor (s : State) (hc : s.column < 10) (hb : s.bamCount < 4) :
    (advance s).column < 10 ∧ (advance s).bamCount < 4 ∧
      (advance s).bamCount = (s.bamCount + 1) % 4 ∧
      (advance s).column = (if s.bamCount = 3 then (s.column + 1) % 10 else s.column) ∧
      cursorPos (advance s) = (cursorPos s + 1) % 40 := by
  have e1 : (advance s).bamCount = (s.bamCount + 1) % 4 := rfl
  have e2 : (advance s).column = (if s.bamCount ≥ 3 then (s.column + 1) % 10 else s.column) := rfl
  unfold cursorPos
  rw [e1, e2]
  by_cases h3 : s.bamCount = 3
  · have : s.bamCount ≥ 3 := by omega
    rw [if_pos this, if_pos h3]
    omega
  · have : ¬ s.bamCount ≥ 3 := by omega
    rw [if_neg this, if_neg h3]
    omega

theorem runISR_append (s : State) (a b : List Nat) :
    runISR s (a ++ b) = runISR (runISR s a) b := by
  unfold runISR
  rw [List.foldl_append]

theorem runISR_cons (s : State) (d : Nat) (ins : List Nat) :
    runISR s (d :: ins) = runISR (ISR s d).1 ins := rfl

theorem runISR_running_left (s : State) (a b : List Nat)
    (h : (runISR s (a ++ b)).halted = false) : (runISR s a).halted = false := by
  cases hh : (runISR s a).halted
  · rfl
  · rw [runISR_append, runISR_halted b _ hh, hh] at h
    cases h

theorem runISR_cursor (ins : List Nat) (s : State) (hc : s.column < 10) (hb : s.bamCount < 4)
    (hrun : (runISR s ins).halted = false) :
    (runISR s ins).column < 10 ∧ (runISR s ins).bamCount < 4 ∧
      cursorPos (runISR s ins) = (cursorPos s + ins.length) % 40 := by
  induction ins generalizing s with
  | nil =>
    refine ⟨hc, hb, ?_⟩
    show cursorPos s = (cursorPos s + 0) % 40
    unfold cursorPos
    omega
  | cons d ins ih =>
    have hs : s.halted = false := runISR_running_left s [] (d :: ins) hrun
    obtain ⟨a1, a2, _, _, a5⟩ := advance_cursor s hc hb
    obtain ⟨c1, c2, _, _⟩ := ISR_cursor s d hs
    rw [runISR_cons] at hrun ⊢
    have hpos : cursorPos (ISR s d).1 = (cursorPos s + 1) % 40 := by
      unfold cursorPos at a5 ⊢
      rw [c1, c2]; exact a5
    obtain ⟨i1, i2, i3⟩ := ih (ISR s d).1 (by rw [c1]; exact a1) (by rw [c2]; exact a2) hrun
    refine ⟨i1, i2, ?_⟩
    rw [i3, hpos, List.length_cons]
    omega

theorem runISR_cursor_last (l : List Nat) (d : Nat) (s : State) (hc : s.column < 10)
    (hb : s.bamCount < 4) (hrun : (runISR s l).halted = false) :
    (runISR s (l ++ [d])).column < 10 ∧ (runISR s (l ++ [d])).bamCount < 4 ∧
      cursorPos (runISR s (l ++ [d])) = (cursorPos s + l.length + 1) % 40 ∧
      (runISR s (l ++ [d])).bamCount = ((runISR s l).bamCount + 1) % 4 ∧
      (runISR s (l ++ [d])).column =
        (if (runISR s l).bamCount = 3 then ((runISR s l).column + 1) % 10
        else (runISR s l).column) := by
  obtain ⟨p1, p2, p3⟩ := runISR_cursor l s hc hb hrun
  have hstep : runISR s (l ++ [d]) = (ISR (runISR s l) d).1 := by
    rw [runISR_append]; rfl
  obtain ⟨a1, a2, a3, a4, a5⟩ := advance_cursor _ p1 p2
  obtain ⟨c1, c2, _, _⟩ := ISR_cursor (runISR s l) d hrun
  have hpos : cursorPos (ISR (runISR s l) d).1 = (cursorPos (runISR s l) + 1) % 40 := by
    unfold cursorPos at a5 ⊢
    rw [c1, c2]; exact a5
  rw [hstep]
  refine ⟨by rw [c1]; exact a1, by rw [c2]; exact a2, ?_, by rw [c2]; exact a3,
    by rw [c1]; exact a4⟩
  rw [hpos, p3]
  omega

/-- C15: from the state after `setup()` (cursor column 9, stage 3), for every
tick executed by the running system: afterwards the column is in `0..9` and
the stage in `0..3`, the stage has advanced by one modulo 4, and the column has
advanced by one modulo 10 exactly when the stage wrapped from 3 to 0; the tick
number `n + 1` selects position `n mod 40` of the cycle (column
`n mod 40 / 4`, stage `n mod 4`), so the first tick selects (0, 0); and of any
40 consecutive executed ticks exactly one selects each pair (column, stage). -/
theorem cursor_advance (sizeofEvent : Nat) (mem0 : Nat → ButtonEvent) (pre : List Nat)
    (d : Nat) (hrun : (runISR (State.init sizeofEvent mem0) pre).halted = false) :
    ((runISR (State.init sizeofEvent mem0) (pre ++ [d])).column < 10 ∧
      (runISR (State.init sizeofEvent mem0) (pre ++ [d])).bamCount < 4 ∧
      cursorPos (runISR (State.init sizeofEvent mem0) (pre ++ [d])) = pre.length % 40) ∧
    ((runISR (State.init sizeofEvent mem0) (pre ++ [d])).bamCount =
        ((runISR (State.init sizeofEvent mem0) pre).bamCount + 1) % 4 ∧
      (runISR (State.init sizeofEvent mem0) (pre ++ [d])).column =
        (if (runISR (State.init sizeofEvent mem0) pre).bamCount = 3 then
          ((runISR (State.init sizeofEvent mem0) pre).column + 1) % 10
        else (runISR (State.init sizeofEvent mem0) pre).column)) ∧
    (pre = [] → (runISR (State.init sizeofEvent mem0) [d]).column = 0 ∧
      (runISR (State.init sizeofEvent mem0) [d]).bamCount = 0) ∧
    (∀ w : List Nat, w.length = 40 →
      (runISR (State.init sizeofEvent mem0) (pre ++ w.take 39)).halted = false →
      ∀ c b, c < 10 → b < 4 →
        ∃! k, k < 40 ∧
          (runISR (State.init sizeofEvent mem0) (pre ++ w.take (k + 1))).column = c ∧
          (runISR (State.init sizeofEvent mem0) (pre ++ w.take (k + 1))).bamCount = b) := by
  have h0c : (State.init sizeofEvent mem0).column < 10 := by
    show COLS - 1 < 10
    decide
  have h0b : (State.init sizeofEvent mem0).bamCount < 4 := by
    show BAM_STAGES - 1 < 4
    decide
  have h0p : cursorPos (State.init sizeofEvent mem0) = 39 := rfl
  obtain ⟨q1, q2, q3, q4, q5⟩ := runISR_cursor_last pre d _ h0c h0b hrun
  rw [h0p] at q3
  have hq3 : cursorPos (runISR (State.init sizeofEvent mem0) (pre ++ [d])) = pre.length % 40 := by
    rw [q3]; omega
  refine ⟨⟨q1, q2, hq3⟩, ⟨q4, q5⟩, ?_, ?_⟩
  · intro hpre
    subst hpre
    have := hq3
    unfold cursorPos at this
    simp only [List.nil_append, List.length_nil] at this q1 q2
    constructor <;> omega
  · intro w h40 hw c b hc hb
    have key : ∀ k, k < 40 →
        (runISR (State.init sizeofEvent mem0) (pre ++ w.take (k + 1))).column < 10 ∧
        (runISR (State.init sizeofEvent mem0) (pre ++ w.take (k + 1))).bamCount < 4 ∧
        cursorPos (runISR (State.init sizeofEvent mem0) (pre ++ w.take (k + 1))) =
          (pre.length + k) % 40 := by
      intro k hk
      have hr : (runISR (State.init sizeofEvent mem0) (pre ++ w.take k)).halted = false := by
        have e : pre ++ w.take 39 = (pre ++ w.take k) ++ (w.take 39).drop k := by
          have : w.take k = (w.take 39).take k := by
            rw [List.take_take]
            congr 1
            omega
          rw [List.append_assoc, this, List.take_append_drop]
        rw [e] at hw
        exact runISR_running_left _ _ _ hw
      have hx : w.take (k + 1) = w.take k ++ [w[k]] := by
        rw [List.take_succ, List.getElem?_eq_getElem (by omega)]
        rfl
      have hl : (pre ++ w.take k).length = pre.length + k := by
        rw [List.length_append, List.length_take, h40]
        omega
      obtain ⟨r1, r2, r3, _, _⟩ := runISR_cursor_last (pre ++ w.take k) w[k] _ h0c h0b hr
      rw [hx, ← List.append_assoc]
      refine ⟨r1, r2, ?_⟩
      rw [r3, h0p, hl]
      omega
    refine ⟨(c * 4 + b + 40 - pre.length % 40) % 40, ⟨Nat.mod_lt _ (by decide), ?_⟩, ?_⟩
    · obtain ⟨r1, r2, r3⟩ := key ((c * 4 + b + 40 - pre.length % 40) % 40)
        (Nat.mod_lt _ (by decide))
      unfold cursorPos at r3
      constructor <;> omega
    · intro k ⟨hk, hkc, hkb⟩
      obtain ⟨r1, r2, r3⟩ := key k hk
      unfold cursorPos at r3
      rw [hkc, hkb] at r3
      omega

theorem cursor_advance_witness :
    (runISR initState []).halted = false ∧
      (runISR initState [0]).column = 0 ∧ (runISR initState [0]).bamCount = 0 :=
  ⟨by decide, (cursor_advance 3 (fun _ => ⟨0, 0, 0⟩) [] 0 (by decide)).2.2.1 rfl⟩

/-! ## Frame buffer invariant -/

theorem chan_lt (red green blue ch : Nat) (hr : red < 16) (hg : green < 16) (hb : blue < 16) :
    chan red green blue ch < 16 := by
  unfold chan
  split_ifs <;> assumption

theorem decode_setColor_other (fb : FrameBuffer) (row col red green blue row2 col2 ch : Nat)
    (hrow2 : row2 < 8) (hne : ¬ (row = row2 ∧ col = col2)) :
    decode (setColor fb row col red green blue) row2 col2 ch = decode fb row2 col2 ch := by
  have key : ∀ i, rowBit (setColor fb row col red green blue i col2 ch) row2 =
      rowBit (fb i col2 ch) row2 := by
    intro i
    rw [setColor_apply]
    split
    · rename_i h
      obtain ⟨h1, _, h3, h4, _⟩ := h
      have hrr : row2 ≠ row := fun e => hne ⟨e.symm, h4.symm⟩
      rw [rowBit_eq_toNat, rowBit_eq_toNat,
        testBit_stageVal _ _ _ _ _ (by omega) (by omega), if_neg hrr, h4]
      simp [hrow2]
    · rfl
  unfold decode
  rw [key 0, key 1, key 2, key 3]

theorem decode_zero (row col ch : Nat) : decode (fun _ _ _ => 0) row col ch = 0 := by
  simp [decode, rowBit]

theorem decode_runCalls (calls : List Call) (fb : FrameBuffer) (row col ch : Nat)
    (hcalls : ∀ c ∈ calls, c.red < 16 ∧ c.green < 16 ∧ c.blue < 16)
    (hrow : row < 6) (hcol : col < 10) (hch : ch < 3) :
    decode (runCalls fb calls) row col ch = lastWritten (decode fb row col ch) calls row col ch := by
  induction calls generalizing fb with
  | nil => rfl
  | cons c calls ih =>
    have hc := hcalls c (List.mem_cons_self _ _)
    have hrest : ∀ c2 ∈ calls, c2.red < 16 ∧ c2.green < 16 ∧ c2.blue < 16 :=
      fun c2 h2 => hcalls c2 (List.mem_cons_of_mem _ h2)
    have hstep : decode (setColor fb c.row c.col c.red c.green c.blue) row col ch =
        if c.row = row ∧ c.col = col then chan c.red c.green c.blue ch
        else decode fb row col ch := by
      by_cases h : c.row = row ∧ c.col = col
      · rw [if_pos h, h.1, h.2]
        exact decode_setColor fb row col c.red c.green c.blue ch hrow hcol hch
          (chan_lt _ _ _ _ hc.1 hc.2.1 hc.2.2)
      · rw [if_neg h]
        exact decode_setColor_other fb c.row c.col c.red c.green c.blue row col ch (by omega) h
    show decode (runCalls (setColor fb c.row c.col c.red c.green c.blue) calls) row col ch =
      lastWritten (if c.row = row ∧ c.col = col then chan c.red c.green c.blue ch
        else decode fb row col ch) calls row col ch
    rw [ih _ hrest, hstep]

/-- C12: after any sequence of `setColor` calls with intensities below 16 on
the all-zero frame buffer, the 4-bit value decoded for a cell with `row < 6`,
`col < 10` and a channel is the intensity of the most recent call addressed to
that cell, or 0 if there was none; and on any frame buffer a call addressed to
another cell, with any arguments, leaves the decoded value of the cell
unchanged. -/
theorem last_write_wins (calls : List Call) (row col ch : Nat)
    (hcalls : ∀ c ∈ calls, c.red < 16 ∧ c.green < 16 ∧ c.blue < 16)
    (hrow : row < 6) (hcol : col < 10) (hch : ch < 3) :
    decode (runCalls (fun _ _ _ => 0) calls) row col ch = lastWritten 0 calls row col ch ∧
    (∀ (fb : FrameBuffer) (c : Call), ¬ (c.row = row ∧ c.col = col) →
      decode (setColor fb c.row c.col c.red c.green c.blue) row col ch = decode fb row col ch) := by
  constructor
  · rw [decode_runCalls calls _ row col ch hcalls hrow hcol hch, decode_zero]
  · intro fb c hne
    exact decode_setColor_other fb c.row c.col c.red c.green c.blue row col ch (by omega) hne

theorem last_write_wins_witness :
    ((∀ c ∈ [Call.mk 2 3 5 6 7, Call.mk 2 4 15 15 15, Call.mk 9 3 1 1 1, Call.mk 2 3 9 0 1],
        c.red < 16 ∧ c.green < 16 ∧ c.blue < 16) ∧ 2 < 6 ∧ 3 < 10 ∧ 0 < 3) ∧
      decode (runCalls (fun _ _ _ => 0)
        [Call.mk 2 3 5 6 7, Call.mk 2 4 15 15 15, Call.mk 9 3 1 1 1, Call.mk 2 3 9 0 1]) 2 3 0 = 9 := by
  have h : ∀ c ∈ [Call.mk 2 3 5 6 7, Call.mk 2 4 15 15 15, Call.mk 9 3 1 1 1, Call.mk 2 3 9 0 1],
      c.red < 16 ∧ c.green < 16 ∧ c.blue < 16 := by
    intro c hc
    simp only [List.mem_cons, List.mem_singleton, List.not_mem_nil, or_false] at hc
    rcases hc with e | e | e | e <;> subst e <;> decide
  refine ⟨⟨h, by decide, by decide, by decide⟩, ?_⟩
  rw [(last_write_wins _ 2 3 0 h (by decide) (by decide) (by decide)).1]
  decide

/-! ## Commit contents -/

theorem commitEvents_eq_spec (c last mask : Nat) :
    commitEvents c last mask (List.range ROWS) = commitSpec c last mask := by
  unfold commitEvents commitSpec
  have hR : ROWS = 6 := rfl
  rw [hR]
  congr 1
  funext r
  by_cases h : mask.testBit r = true
  · rw [if_pos ((and_shl_ne_zero mask r).2 h), if_pos h]
    unfold mkEvent
    simp only [COLS]
    have hcol : (c + 10 - 1) % 10 = (c + 9) % 10 := by congr 1
    by_cases hl : last.testBit r = true
    · rw [if_pos ((and_shl_ne_zero last r).2 hl), if_pos hl, hcol]
    · rw [if_neg (fun e => hl ((and_shl_ne_zero last r).1 e)), if_neg hl, hcol]
  · rw [if_neg (fun e => h ((and_shl_ne_zero mask r).1 e)), if_neg h]

theorem debounce_reaches (s : State) (d : Nat) (hbefore : s.buttonInputCounter s.column < 2)
    (hafter : (debounce s d).buttonInputCounter s.column = 2) :
    d ≠ s.lastButtonInput s.column ∧
      d ^^^ s.lastButtonInput s.column = s.buttonInputChanged s.column ∧
      s.buttonInputCounter s.column = 1 := by
  by_cases h1 : d = s.lastButtonInput s.column
  · have := (scan_same s d h1).2.2.2
    simp only [colState, Prod.mk.injEq] at this
    rw [this.2.1] at hafter; cases hafter
  by_cases h2 : d ^^^ s.lastButtonInput s.column = s.buttonInputChanged s.column
  · rcases (by omega : s.buttonInputCounter s.column = 0 ∨
        s.buttonInputCounter s.column = 1) with h3 | h3
    · have := (scan_count s d h1 h2 h3).2.2.2
      simp only [colState, Prod.mk.injEq] at this
      rw [this.2.1] at hafter; cases hafter
    · exact ⟨h1, h2, h3⟩
  · have := (scan_new_mask s d h1 h2).2.2.2
    simp only [colState, Prod.mk.injEq] at this
    rw [this.2.1] at hafter; cases hafter

/-- C14: on a tick of the running system that is a stage-0 scan with column
cursor `c` and on which `buttonInputCounter` of `c` goes from below 2 to 2,
with room in the event queue, the events appended to the queue are, in
ascending row order, one event `{column = (c + 9) mod 10, row = r, isPressed}`
for each `r` in `0..5` whose bit is set in `buttonInputChanged`, with
`isPressed = 1` exactly when bit `r` of `lastButtonInput` before the tick is
0; afterwards `lastButtonInput` of `c` is the byte read on that tick, and the
system still runs. -/
theorem commit_contents (s : State) (d c : Nat) (hscan : scanColumn s = some c)
    (hbefore : s.buttonInputCounter c < BUTTON_INPUT_DEBOUNCE_CONSTANT)
    (hafter : (ISR s d).1.buttonInputCounter c = BUTTON_INPUT_DEBOUNCE_CONSTANT)
    (hwf : s.buttonEventBuffer.WF)
    (hroom : s.buttonEventBuffer.count +
      (commitSpec c (s.lastButtonInput c) (s.buttonInputChanged c)).length ≤
        s.buttonEventBuffer.endAddr) :
    (ISR s d).1.buttonEventBuffer.contents =
        s.buttonEventBuffer.contents ++
          commitSpec c (s.lastButtonInput c) (s.buttonInputChanged c) ∧
      (ISR s d).1.lastButtonInput c = d ∧
      (ISR s d).1.halted = false := by
  obtain ⟨e1, e2, e3⟩ := ISR_scan s d c hscan
  rw [e1] at hafter ⊢
  have hb : (advance s).buttonInputCounter (advance s).column < 2 := by rw [e2]; exact hbefore
  have ha : (debounce (advance s) d).buttonInputCounter (advance s).column = 2 := by
    rw [e2]; exact hafter
  obtain ⟨k1, k2, k3⟩ := debounce_reaches (advance s) d hb ha
  have hroom2 : (advance s).buttonEventBuffer.count +
      (commitEvents (advance s).column ((advance s).lastButtonInput (advance s).column)
        ((advance s).buttonInputChanged (advance s).column) (List.range ROWS)).length ≤
      (advance s).buttonEventBuffer.endAddr := by
    rw [commitEvents_eq_spec, e2]; exact hroom
  obtain ⟨c1, _, _, _, c5⟩ := commitLoop_room _ _ _ _ (advance s).buttonEventBuffer hwf hroom2
  rw [debounce_commit (advance s) d k1 k2 k3, if_pos c1]
  rw [commitEvents_eq_spec, e2] at c5
  refine ⟨?_, ?_, e3⟩
  · show (commitLoop (advance s).column ((advance s).lastButtonInput (advance s).column)
      ((advance s).buttonInputChanged (advance s).column) (List.range ROWS)
      (advance s).buttonEventBuffer).1.contents = _
    rw [e2]; exact c5
  · show Function.update (advance s).lastButtonInput (advance s).column d c = d
    rw [e2, Function.update_same]

theorem commit_contents_witness :
    (scanColumn readyState = some 0 ∧
      readyState.buttonInputCounter 0 < BUTTON_INPUT_DEBOUNCE_CONSTANT ∧
      (ISR readyState 1).1.buttonInputCounter 0 = BUTTON_INPUT_DEBOUNCE_CONSTANT) ∧
    (ISR readyState 1).1.lastButtonInput 0 = 1 :=
  ⟨by decide, (commit_contents readyState 1 0 (by decide) (by decide) (by decide)
    ⟨by decide, by decide⟩ (by decide)).2.1⟩

/-! ## The log of enqueued events -/

theorem commitLoop_general (column last changed : Nat) (rows : List Nat)
    (buf : RingBuffer ButtonEvent) (hwf : buf.WF) :
    ∃ k, (commitLoop column last changed rows buf).1.contents =
        buf.contents ++ commitEvents column last changed (rows.take k) ∧
      (commitLoop column last changed rows buf).1.WF ∧
      ((commitLoop column last changed rows buf).2 = true → rows.take k = rows) := by
  induction rows generalizing buf with
  | nil => exact ⟨0, by simp [commitLoop, commitEvents], hwf, fun _ => rfl⟩
  | cons row rows ih =>
    by_cases h : changed &&& (1 <<< row) = 0
    · have hn : ¬ (changed &&& (1 <<< row) ≠ 0) := fun e => e h
      obtain ⟨k, i1, i2, i3⟩ := ih buf hwf
      refine ⟨k + 1, ?_, ?_, ?_⟩
      · simp only [commitLoop, if_neg hn, List.take_succ_cons]
        rw [commitEvents_cons, if_neg hn]; exact i1
      · simp only [commitLoop, if_neg hn]; exact i2
      · simp only [commitLoop, if_neg hn, List.take_succ_cons]
        intro ht; rw [i3 ht]
    · have hp : changed &&& (1 <<< row) ≠ 0 := h
      by_cases hnf : buf.nextElement = buf.tail
      · have h2 : (buf.write (mkEvent column last row)).2 = false := by
          rw [write_snd]; simp [hnf]
        have h1 := write_fst_of_full buf (mkEvent column last row) hnf
        refine ⟨0, ?_, ?_, ?_⟩
        · simp [commitLoop, hp, h2, h1, commitEvents]
        · simp only [commitLoop, if_pos hp, h2]
          rw [h1]; simpa using hwf
        · simp [commitLoop, hp, h2]
      · have h2 : (buf.write (mkEvent column last row)).2 = true := by
          rw [write_snd]; simp [hnf]
        obtain ⟨w1, _, _, _, _, w6⟩ := write_room buf (mkEvent column last row) hwf hnf
        obtain ⟨k, i1, i2, i3⟩ := ih (buf.write (mkEvent column last row)).1 w1
        refine ⟨k + 1, ?_, ?_, ?_⟩
        · simp only [commitLoop, if_pos hp, h2, if_true, List.take_succ_cons]
          rw [commitEvents_cons, if_pos hp, i1, w6]; simp
        · simp only [commitLoop, if_pos hp, h2, if_true]; exact i2
        · simp only [commitLoop, if_pos hp, h2, if_true, List.take_succ_cons]
          intro ht; rw [i3 ht]

theorem tickEvents_of_buffer_eq (s : State) (d : Nat)
    (h : (ISR s d).1.buttonEventBuffer = s.buttonEventBuffer) : tickEvents s d = [] := by
  unfold tickEvents
  rw [h, List.drop_length]

theorem advance_column_lt (s : State) (hcol : s.column < 10) : (advance s).column < 10 := by
  show (if s.bamCount ≥ BAM_STAGES - 1 then (s.column + 1) % COLS else s.column) < 10
  split
  · exact Nat.mod_lt _ (by decide)
  · exact hcol

theorem tick_effect (s : State) (d : Nat) (hwf : s.buttonEventBuffer.WF) (hcol : s.column < 10) :
    ((ISR s d).1.buttonEventBuffer.WF ∧ (ISR s d).1.column < 10) ∧
    ((tickEvents s d = [] ∧ (ISR s d).1.lastButtonInput = s.lastButtonInput) ∨
      (∃ k, s.halted = false ∧
        tickEvents s d = commitEvents (advance s).column (s.lastButtonInput (advance s).column)
          (d ^^^ s.lastButtonInput (advance s).column) ((List.range ROWS).take k) ∧
        ((ISR s d).1.halted = true ∨
          ((List.range ROWS).take k = List.range ROWS ∧
            (ISR s d).1.lastButtonInput =
              Function.update s.lastButtonInput (advance s).column d)))) := by
  rcases ISR_cases s d with ⟨_, e⟩ | ⟨hrun, _, e⟩ | ⟨_, _, e⟩
  · have e1 : (ISR s d).1 = s := by rw [e]
    exact ⟨by rw [e1]; exact ⟨hwf, hcol⟩, Or.inl ⟨tickEvents_of_buffer_eq s d (by rw [e1]),
      by rw [e1]⟩⟩
  · have e1 : (ISR s d).1 = debounce (advance s) d := by rw [e]
    have hc2 : (debounce (advance s) d).column < 10 := by
      rw [(debounce_cursor (advance s) d).1]; exact advance_column_lt s hcol
    by_cases h1 : d = (advance s).lastButtonInput (advance s).column
    · obtain ⟨a1, _, a3, _⟩ := scan_same (advance s) d h1
      refine ⟨by rw [e1]; exact ⟨by rw [a1]; exact hwf, hc2⟩, Or.inl ⟨?_, ?_⟩⟩
      · exact tickEvents_of_buffer_eq s d (by rw [e1, a1]; rfl)
      · rw [e1, a3]; rfl
    by_cases h2 : d ^^^ (advance s).lastButtonInput (advance s).column =
        (advance s).buttonInputChanged (advance s).column
    · rcases (by omega : (advance s).buttonInputCounter (advance s).column = 0 ∨
          (advance s).buttonInputCounter (advance s).column = 1 ∨
          2 ≤ (advance s).buttonInputCounter (advance s).column) with h3 | h3 | h3
      · obtain ⟨a1, _, a3, _⟩ := scan_count (advance s) d h1 h2 h3
        refine ⟨by rw [e1]; exact ⟨by rw [a1]; exact hwf, hc2⟩, Or.inl ⟨?_, ?_⟩⟩
        · exact tickEvents_of_buffer_eq s d (by rw [e1, a1]; rfl)
        · rw [e1, a3]; rfl
      · obtain ⟨k, g1, g2, g3⟩ := commitLoop_general (advance s).column
          ((advance s).lastButtonInput (advance s).column)
          ((advance s).buttonInputChanged (advance s).column) (List.range ROWS)
          (advance s).buttonEventBuffer hwf
        have hres := debounce_commit (advance s) d h1 h2 h3
        have hbuf : (debounce (advance s) d).buttonEventBuffer =
            (commitLoop (advance s).column ((advance s).lastButtonInput (advance s).column)
              ((advance s).buttonInputChanged (advance s).column) (List.range ROWS)
              (advance s).buttonEventBuffer).1 := by
          rw [hres]; split <;> rfl
        refine ⟨by rw [e1]; exact ⟨by rw [hbuf]; exact g2, hc2⟩, Or.inr ⟨k, hrun, ?_, ?_⟩⟩
        · unfold tickEvents
          rw [e1, hbuf, g1, ← h2]
          exact List.drop_left _ _
        · by_cases hok : (commitLoop (advance s).column
              ((advance s).lastButtonInput (advance s).column)
              ((advance s).buttonInputChanged (advance s).column) (List.range ROWS)
              (advance s).buttonEventBuffer).2 = true
          · right
            refine ⟨g3 hok, ?_⟩
            rw [e1, hres, if_pos hok]; rfl
          · left
            rw [e1, hres, if_neg hok]
      · have hd := debounce_done (advance s) d h1 h2 h3
        refine ⟨by rw [e1, hd]; exact ⟨hwf, advance_column_lt s hcol⟩, Or.inl ⟨?_, ?_⟩⟩
        · exact tickEvents_of_buffer_eq s d (by rw [e1, hd]; rfl)
        · rw [e1, hd]; rfl
    · obtain ⟨a1, _, a3, _⟩ := scan_new_mask (advance s) d h1 h2
      refine ⟨by rw [e1]; exact ⟨by rw [a1]; exact hwf, hc2⟩, Or.inl ⟨?_, ?_⟩⟩
      · exact tickEvents_of_buffer_eq s d (by rw [e1, a1]; rfl)
      · rw [e1, a3]; rfl
  · have e1 : (ISR s d).1 = advance s := by rw [e]
    exact ⟨by rw [e1]; exact ⟨hwf, advance_column_lt s hcol⟩,
      Or.inl ⟨tickEvents_of_buffer_eq s d (by rw [e1]; rfl), by rw [e1]; rfl⟩⟩

theorem eventLog_halted (colors : Nat → Nat → Nat) (steps : List Step) (s : State)
    (h : s.halted = true) : eventLog colors s steps = [] := by
  induction steps with
  | nil => rfl
  | cons st steps ih =>
    cases st with
    | tick dataIn =>
      simp only [eventLog]
      rw [step_halted colors s _ h, ih,
        tickEvents_of_buffer_eq s dataIn (by rw [ISR_halted s dataIn h])]
      rfl
    | poll => simp only [eventLog]; rw [step_halted colors s _ h, ih]
    | receive bytes wire => simp only [eventLog]; rw [step_halted colors s _ h, ih]
    | paint rgb => simp only [eventLog]; rw [step_halted colors s _ h, ih]

theorem step_good (colors : Nat → Nat → Nat) (s : State) (st : Step)
    (hwf : s.buttonEventBuffer.WF) (hcol : s.column < 10) :
    (State.step colors s st).buttonEventBuffer.WF ∧ (State.step colors s st).column < 10 := by
  cases st with
  | tick dataIn => exact (tick_effect s dataIn hwf hcol).1
  | poll =>
    simp only [State.step]
    split
    · exact ⟨hwf, hcol⟩
    · refine ⟨?_, hcol⟩
      show (requestEvent s.buttonEventBuffer).1.WF
      have e : (requestEvent s.buttonEventBuffer).1 = s.buttonEventBuffer.read.1 := by
        unfold requestEvent
        split <;> rename_i h <;> rw [h]
      rw [e]
      by_cases hh : s.buttonEventBuffer.head = s.buttonEventBuffer.tail
      · rw [read_of_empty _ hh]; exact hwf
      · exact (read_nonempty _ hwf hh).1
  | receive bytes wire =>
    simp only [State.step]
    split <;> exact ⟨hwf, hcol⟩
  | paint rgb =>
    simp only [State.step]
    split <;> exact ⟨hwf, hcol⟩

theorem mkEvent_valid (column last row : Nat) (hrow : row < 6) :
    (mkEvent column last row).column < 10 ∧ (mkEvent column last row).row < 6 ∧
      (mkEvent column last row).isPressed ≤ 1 := by
  refine ⟨Nat.mod_lt _ (by decide), hrow, ?_⟩
  unfold mkEvent
  show (if last &&& (1 <<< row) ≠ 0 then 0 else 1) ≤ 1
  split <;> omega

theorem commitEvents_valid (column last changed k : Nat) (e : ButtonEvent)
    (he : e ∈ commitEvents column last changed ((List.range ROWS).take k)) :
    e.column < 10 ∧ e.row < 6 ∧ e.isPressed ≤ 1 := by
  unfold commitEvents at he
  obtain ⟨r, hr, hf⟩ := List.mem_filterMap.1 he
  have hr6 : r < 6 := List.mem_range.1 (List.mem_of_mem_take hr)
  split at hf
  · cases hf
    exact mkEvent_valid column last r hr6
  · cases hf

theorem eventLog_valid (colors : Nat → Nat → Nat) (steps : List Step) (s : State)
    (hwf : s.buttonEventBuffer.WF) (hcol : s.column < 10) :
    ∀ e ∈ eventLog colors s steps, e.column < 10 ∧ e.row < 6 ∧ e.isPressed ≤ 1 := by
  induction steps generalizing s with
  | nil => intro e he; cases he
  | cons st steps ih =>
    obtain ⟨g1, g2⟩ := step_good colors s st hwf hcol
    cases st with
    | tick dataIn =>
      intro e he
      simp only [eventLog, List.mem_append] at he
      rcases he with he | he
      · rcases (tick_effect s dataIn hwf hcol).2 with ⟨h0, _⟩ | ⟨k, _, hk, _⟩
        · rw [h0] at he; cases he
        · rw [hk] at he
          exact commitEvents_valid _ _ _ k e he
      · exact ih _ g1 g2 e he
    | poll => intro e he; simp only [eventLog] at he; exact ih _ g1 g2 e he
    | receive bytes wire => intro e he; simp only [eventLog] at he; exact ih _ g1 g2 e he
    | paint rgb => intro e he; simp only [eventLog] at he; exact ih _ g1 g2 e he

/-- C13: every event the scheduler enqueues during any run from a state with
well-formed queue cursors and column cursor in `0..9`, as the state after
`setup()` is, has `column` in `0..9`, `row` in `0..5` and `isPressed` 0 or 1,
so its three bytes are never 0xFF, 0xFF, 0xFF. -/
theorem sentinel_unambiguous (colors : Nat → Nat → Nat) (steps : List Step) (s : State)
    (e : ButtonEvent) (hwf : s.buttonEventBuffer.WF) (hcol : s.column < 10)
    (he : e ∈ eventLog colors s steps) :
    ((e.column < 10 ∧ e.row < 6 ∧ e.isPressed ≤ 1) ∧
        [e.column, e.row, e.isPressed] ≠ [0xFF, 0xFF, 0xFF]) ∧
      (∀ sizeofEvent mem0, (State.init sizeofEvent mem0).buttonEventBuffer.WF ∧
        (State.init sizeofEvent mem0).column < 10) := by
  have hv := eventLog_valid colors steps s hwf hcol e he
  refine ⟨⟨hv, ?_⟩, fun sizeofEvent mem0 =>
    ⟨(new_WF sizeofEvent BUTTON_EVENT_BUFFER_SIZE mem0).1, by show COLS - 1 < 10; decide⟩⟩
  intro h
  have : e.column = 255 := by injection h
  omega

theorem sentinel_unambiguous_witness :
    (readyState.buttonEventBuffer.WF ∧ readyState.column < 10 ∧
      ButtonEvent.mk 9 0 1 ∈ eventLog (fun _ _ => 0) readyState [Step.tick 1]) ∧
    [(ButtonEvent.mk 9 0 1).column, (ButtonEvent.mk 9 0 1).row,
      (ButtonEvent.mk 9 0 1).isPressed] ≠ [0xFF, 0xFF, 0xFF] :=
  ⟨⟨⟨by decide, by decide⟩, by decide, by decide⟩,
    (sentinel_unambiguous (fun _ _ => 0) [Step.tick 1] readyState (ButtonEvent.mk 9 0 1)
      ⟨by decide, by decide⟩ (by decide) (by decide)).1.2⟩

/-! ## Alternation of press and release -/

theorem pressSeq_append (l1 l2 : List ButtonEvent) (col row : Nat) :
    pressSeq (l1 ++ l2) col row = pressSeq l1 col row ++ pressSeq l2 col row := by
  unfold pressSeq
  rw [List.filter_append, List.map_append]

theorem mkEvent_isPressed (column last row : Nat) :
    (mkEvent column last row).isPressed = expect last row := by
  unfold mkEvent expect
  show (if last &&& (1 <<< row) ≠ 0 then 0 else 1) = _
  by_cases h : last.testBit row = true
  · rw [if_pos ((and_shl_ne_zero last row).2 h), if_pos h]
  · rw [if_neg (fun e => h ((and_shl_ne_zero last row).1 e)), if_neg h]

theorem pressSeq_commitEvents (c last m : Nat) (rows : List Nat) (col row : Nat)
    (hnd : rows.Nodup) :
    pressSeq (commitEvents c last m rows) col row =
      if (c + 9) % 10 = col ∧ row ∈ rows ∧ m.testBit row = true then [expect last row]
      else [] := by
  induction rows with
  | nil => simp [commitEvents, pressSeq]
  | cons r rs ih =>
    obtain ⟨hnotin, hnd2⟩ := List.nodup_cons.1 hnd
    have ih2 := ih hnd2
    have hcolumn : (mkEvent c last r).column = (c + 9) % 10 := by
      show (c + COLS - 1) % COLS = (c + 9) % 10
      simp only [COLS]; congr 1
    have hrow : (mkEvent c last r).row = r := rfl
    rw [commitEvents_cons]
    by_cases hb : m.testBit r = true
    · rw [if_pos ((and_shl_ne_zero m r).2 hb)]
      have hcons : pressSeq (mkEvent c last r :: commitEvents c last m rs) col row =
          if (c + 9) % 10 = col ∧ r = row then
            expect last r :: pressSeq (commitEvents c last m rs) col row
          else pressSeq (commitEvents c last m rs) col row := by
        unfold pressSeq
        rw [List.filter_cons]
        by_cases hm : (c + 9) % 10 = col ∧ r = row
        · rw [if_pos hm]
          have : decide ((mkEvent c last r).column = col ∧ (mkEvent c last r).row = row) = true := by
            rw [hcolumn, hrow]; exact decide_eq_true hm
          rw [if_pos this, List.map_cons, mkEvent_isPressed]
        · rw [if_neg hm]
          have : ¬ decide ((mkEvent c last r).column = col ∧ (mkEvent c last r).row = row) = true := by
            rw [hcolumn, hrow]; simpa using hm
          rw [if_neg this]
      rw [hcons, ih2]
      by_cases hc : (c + 9) % 10 = col
      · by_cases hr : r = row
        · subst hr
          have : ¬ ((c + 9) % 10 = col ∧ r ∈ rs ∧ m.testBit r = true) := fun h => hnotin h.2.1
          rw [if_pos ⟨hc, rfl⟩, if_neg this, if_pos ⟨hc, List.mem_cons_self _ _, hb⟩]
        · have h1 : ¬ ((c + 9) % 10 = col ∧ r = row) := fun h => hr h.2
          rw [if_neg h1]
          have hiff : (row ∈ r :: rs) ↔ row ∈ rs := by
            rw [List.mem_cons]
            constructor
            · rintro (e | e)
              · exact absurd e.symm hr
              · exact e
            · exact Or.inr
          simp only [hiff]
      · have h1 : ¬ ((c + 9) % 10 = col ∧ r = row) := fun h => hc h.1
        rw [if_neg h1]
        simp [hc]
    · rw [if_neg (fun e => hb ((and_shl_ne_zero m r).1 e)), ih2]
      by_cases hr : r = row
      · subst hr
        have h1 : ¬ ((c + 9) % 10 = col ∧ r ∈ rs ∧ m.testBit r = true) := fun h => hb h.2.2
        have h2 : ¬ ((c + 9) % 10 = col ∧ r ∈ r :: rs ∧ m.testBit r = true) := fun h => hb h.2.2
        rw [if_neg h1, if_neg h2]
      · have hiff : (row ∈ r :: rs) ↔ row ∈ rs := by
          rw [List.mem_cons]
          constructor
          · rintro (e | e)
            · exact absurd e.symm hr
            · exact e
          · exact Or.inr
        simp only [hiff]

theorem expect_le_one (last row : Nat) : expect last row ≤ 1 := by
  unfold expect; split <;> omega

theorem expect_flip (d last row : Nat) (h : (d ^^^ last).testBit row = true) :
    expect d row = 1 - expect last row := by
  rw [Nat.testBit_xor] at h
  unfold expect
  cases hd : d.testBit row <;> cases hl : last.testBit row <;> simp_all

theorem expect_keep (d last row : Nat) (h : ¬ (d ^^^ last).testBit row = true) :
    expect d row = expect last row := by
  rw [Nat.testBit_xor] at h
  unfold expect
  cases hd : d.testBit row <;> cases hl : last.testBit row <;> simp_all

theorem alternates_log (colors : Nat → Nat → Nat) (steps : List Step) (s : State)
    (col row : Nat) (hc : col < 10) (hr : row < 6)
    (hwf : s.buttonEventBuffer.WF) (hcol : s.column < 10) :
    alternates (expect (s.lastButtonInput ((col + 1) % 10)) row)
      (pressSeq (eventLog colors s steps) col row) = true := by
  induction steps generalizing s with
  | nil => rfl
  | cons st steps ih =>
    obtain ⟨g1, g2⟩ := step_good colors s st hwf hcol
    have ih2 := ih (State.step colors s st) g1 g2
    cases st with
    | tick dataIn =>
      simp only [eventLog]
      rw [pressSeq_append]
      have hstep : State.step colors s (Step.tick dataIn) = (ISR s dataIn).1 := rfl
      rw [hstep] at ih2 ⊢
      rcases (tick_effect s dataIn hwf hcol).2 with ⟨h0, hl⟩ | ⟨k, hrun, hk, hres⟩
      · rw [h0]
        rw [hl] at ih2
        exact ih2
      · have hclt : (advance s).column < 10 := advance_column_lt s hcol
        have hnd : ((List.range ROWS).take k).Nodup :=
          List.Nodup.sublist (List.take_sublist _ _) (List.nodup_range _)
        rw [hk, pressSeq_commitEvents _ _ _ _ col row hnd]
        by_cases hm : ((advance s).column + 9) % 10 = col ∧
            row ∈ (List.range ROWS).take k ∧
            (dataIn ^^^ s.lastButtonInput (advance s).column).testBit row = true
        · have hidx : (col + 1) % 10 = (advance s).column := by omega
          rw [if_pos hm, hidx]
          rcases hres with hh | ⟨_, hlast⟩
          · rw [eventLog_halted colors steps _ hh]
            simp [pressSeq, alternates]
          · rw [hlast, hidx, Function.update_same] at ih2
            rw [expect_flip _ _ _ hm.2.2] at ih2
            simp [alternates, ih2]
        · rw [if_neg hm, List.nil_append]
          rcases hres with hh | ⟨htake, hlast⟩
          · rw [eventLog_halted colors steps _ hh]
            simp [pressSeq, alternates]
          · rw [hlast] at ih2
            by_cases hidx : (col + 1) % 10 = (advance s).column
            · rw [hidx, Function.update_same] at ih2
              have hmem : row ∈ (List.range ROWS).take k := by
                rw [htake]; exact List.mem_range.2 hr
              have hbit : ¬ (dataIn ^^^ s.lastButtonInput (advance s).column).testBit row = true :=
                fun hb => hm ⟨by omega, hmem, hb⟩
              rw [expect_keep _ _ _ hbit] at ih2
              rw [hidx]; exact ih2
            · rw [Function.update_noteq hidx] at ih2
              exact ih2
    | poll =>
      simp only [eventLog]
      have : (State.step colors s Step.poll).lastButtonInput = s.lastButtonInput := by
        simp only [State.step]; split <;> rfl
      rw [this] at ih2; exact ih2
    | receive bytes wire =>
      simp only [eventLog]
      have : (State.step colors s (Step.receive bytes wire)).lastButtonInput =
          s.lastButtonInput := by
        simp only [State.step]; split <;> rfl
      rw [this] at ih2; exact ih2
    | paint rgb =>
      simp only [eventLog]
      have : (State.step colors s (Step.paint rgb)).lastButtonInput = s.lastButtonInput := by
        simp only [State.step]; split <;> rfl
      rw [this] at ih2; exact ih2

/-- C20: in every run from the state after `setup()` (ticks with any bytes
read back, polls, host messages, frame buffer stores) and for every button
`(col, row)`, the `isPressed` values of the events enqueued for that button,
in enqueue order, are 1, 0, 1, 0, ... starting with 1. -/
theorem press_release_alternate (colors : Nat → Nat → Nat) (sizeofEvent : Nat)
    (mem0 : Nat → ButtonEvent) (steps : List Step) (col row : Nat) :
    alternates 1 (pressSeq (eventLog colors (State.init sizeofEvent mem0) steps) col row) =
      true := by
  have hwf := (new_WF sizeofEvent BUTTON_EVENT_BUFFER_SIZE mem0 (α := ButtonEvent)).1
  have hcol : (State.init sizeofEvent mem0).column < 10 := by show COLS - 1 < 10; decide
  by_cases hv : col < 10 ∧ row < 6
  · have := alternates_log colors steps (State.init sizeofEvent mem0) col row hv.1 hv.2 hwf hcol
    have he : expect ((State.init sizeofEvent mem0).lastButtonInput ((col + 1) % 10)) row = 1 := by
      show expect 0 row = 1
      unfold expect
      rw [Nat.zero_testBit]; rfl
    rw [he] at this
    exact this
  · have hnil : pressSeq (eventLog colors (State.init sizeofEvent mem0) steps) col row = [] := by
      unfold pressSeq
      rw [List.map_eq_nil_iff, List.filter_eq_nil_iff]
      intro e he
      have := eventLog_valid colors steps _ hwf hcol e he
      simp only [decide_eq_true_eq]
      intro h
      exact hv ⟨by omega, by omega⟩
    rw [hnil]; rfl

end Matrix
